import Mathlib

/-
  Verification of the PixelForge editing core against its specification.

  The development shallowly embeds the pixel pipeline of the editor:
  images are flat row-major lists of 8-bit samples (Nat, with the
  invariant `≤ 255` stated explicitly), floating point scalars are
  modelled as rationals, and calls into the external OpenCV / NumPy
  random primitives are abstracted as fields of an explicit `CV`
  record that every engine function takes as a parameter.  Everything
  the repository itself computes (guards, blending, parameter
  mappings, element-wise arithmetic, clamping, dispatch tables, the
  history stacks, the parameter dictionaries) is translated directly
  from the source.
-/

namespace PixelForge

/-- A float array is modelled as a list of rationals. -/
abbrev FImage := List ℚ

/-- An 8-bit BGR image: height, width and the flat row-major sample list
(3 interleaved channels; sample index `i` belongs to channel `i % 3` of
pixel `i / 3`). -/
structure Image where
  h : Nat
  w : Nat
  data : List Nat
deriving DecidableEq, Repr

/-- All samples of the buffer are valid 8-bit values. -/
def Image.ValidU8 (img : Image) : Prop := ∀ v ∈ img.data, v ≤ 255

instance (img : Image) : Decidable img.ValidU8 := by
  unfold Image.ValidU8; infer_instance

/-- `np.clip(q, 0, 1)`. -/
def clip01 (q : ℚ) : ℚ := min 1 (max 0 q)

/-- `np.clip(q, 0, 255)`. -/
def clip0255 (q : ℚ) : ℚ := min 255 (max 0 q)

/-- Python `int()` / C float-to-integer conversion: truncation toward zero. -/
def truncQ (q : ℚ) : Int := if q < 0 then ⌈q⌉ else ⌊q⌋

/-- `np.clip(q, 0, 255).astype(np.uint8)`: clamp, then truncate. -/
def toU8 (q : ℚ) : Nat := (truncQ (clip0255 q)).toNat

/-- `.astype(np.uint8)` without a preceding clip: truncation with wrap-around
modulo 256 (NumPy converts through a signed integer and keeps the low byte). -/
def u8cast (q : ℚ) : Nat := ((truncQ q) % 256).toNat

/-- Rounding to the nearest integer, as used by OpenCV saturate casts. -/
def roundQ (q : ℚ) : Int := ⌊q + 1/2⌋

/-- `cv2.saturate_cast<uchar>(round q)`. -/
def satRound (q : ℚ) : Nat := (max 0 (min 255 (roundQ q))).toNat

/-- Python float modulo (sign follows the divisor), used for the hue wrap. -/
def qmod (a b : ℚ) : ℚ := a - b * ⌊a / b⌋

/-- `cv2.addWeighted` on a single sample: `saturate_cast<uchar>` of the
rounded weighted sum. -/
def addWeightedPx (a : Nat) (alpha : ℚ) (b : Nat) (beta : ℚ) (gamma : ℚ) : Nat :=
  satRound ((a : ℚ) * alpha + (b : ℚ) * beta + gamma)

/-- `cv2.addWeighted(x, alpha, y, beta, gamma)`. -/
def addWeighted (x : Image) (alpha : ℚ) (y : Image) (beta : ℚ) (gamma : ℚ) : Image :=
  ⟨x.h, x.w, List.zipWith (fun a b => addWeightedPx a alpha b beta gamma) x.data y.data⟩

/-- `FilterEngine._blend`: interpolate the original and the filtered image
by the intensity; `≤ 0` yields the original copy, `≥ 1` the filtered image. -/
def blend (original filtered : Image) (intensity : ℚ) : Image :=
  if intensity ≤ 0 then original
  else if 1 ≤ intensity then filtered
  else addWeighted original (1 - intensity) filtered intensity 0

/-- `cv2.subtract`: saturating per-sample subtraction of 8-bit images. -/
def satSub (x y : Image) : Image :=
  ⟨x.h, x.w, List.zipWith (fun a b => a - b) x.data y.data⟩

/-- `cv2.add`: saturating per-sample addition of 8-bit images. -/
def satAdd (x y : Image) : Image :=
  ⟨x.h, x.w, List.zipWith (fun a b => min 255 (a + b)) x.data y.data⟩

/-- `cv2.convertScaleAbs(img, alpha, beta)`: per sample
`saturate_cast<uchar>(round |alpha * v + beta|)`. -/
def convertScaleAbs (img : Image) (alpha beta : ℚ) : Image :=
  ⟨img.h, img.w, img.data.map (fun v => satRound |(v : ℚ) * alpha + beta|)⟩

/-- `cv2.divide(x, y, scale)`: `saturate_cast<uchar>(round (a * scale / b))`,
with division by zero giving 0. -/
def cvDivide (x y : Image) (scale : ℚ) : Image :=
  ⟨x.h, x.w, List.zipWith
    (fun a b => if b = 0 then 0 else satRound ((a : ℚ) * scale / (b : ℚ))) x.data y.data⟩

/-- `255 - img` on a uint8 array. -/
def imSub255 (x : Image) : Image := ⟨x.h, x.w, x.data.map (fun v => 255 - v)⟩

/-- Indexed map over a list, carrying the running index (used to model
NumPy operations that address a specific channel or pixel position). -/
def idxMapFrom (f : Nat → α → β) : Nat → List α → List β
  | _, [] => []
  | i, a :: as => f i a :: idxMapFrom f (i + 1) as

def idxMap (f : Nat → α → β) (l : List α) : List β := idxMapFrom f 0 l

/-- A 2-dimensional matrix of pixels, mirroring NumPy's row/column view of an
array (used by the geometric transforms, which slice rows and columns). -/
abbrev Mat (α : Type) := List (List α)

/-- A 3-channel row/column matrix: each entry is the list of channel values of
one pixel. -/
abbrev RGBMat := Mat (List Nat)

/-- The external OpenCV / NumPy primitives used by the engines.  They are not
code of this repository; each is abstracted as an unknown function, so that
every theorem below holds for all implementations of the library (subject to
`CV.Valid`, which records only that the primitives return well-formed 8-bit
buffers or normalized masks, as their documented types guarantee). -/
structure CV where
  gaussianBlurK : Image → Nat → Image
  gaussianBlurS : Image → ℚ → Image
  boxBlur : Image → Nat → Image
  medianBlur : Image → Nat → Image
  bilateral : Image → Nat → ℚ → ℚ → Image
  canny : Image → Int → Int → Image
  bgr2gray : Image → Image
  gray2bgr : Image → Image
  filter2D : List (List ℚ) → Image → Image
  colorTransform : List (List ℚ) → Image → Image
  bgr2hsv : Image → Image
  hsv2bgr : Image → Image
  resizeLinear : Image → Nat → Nat → Image
  resizeNearest : Image → Nat → Nat → Image
  radialMask : Nat → Nat → ℚ → FImage
  blurMaskF : FImage → ℚ → FImage
  noiseLayer : Nat → Nat → Bool → ℚ → FImage
  colorNoiseLayer : Nat → Nat → ℚ → FImage
  spMask : Nat → Nat → ℚ → FImage
  spChan : Nat → Nat → Nat → FImage
  poissonSample : FImage → FImage
  uniformNoise : ℚ → Nat → Nat → Bool → ℚ → FImage
  pow2 : ℚ → ℚ
  gammaTable : ℚ → List Nat
  cvFlip : RGBMat → Int → RGBMat
  cvWarpRotate : RGBMat → ℚ → RGBMat
  cvResize : RGBMat → Nat → Nat → Nat → RGBMat

/-- The primitives return what their library types promise: uint8 buffers
(all samples `≤ 255`), masks with entries in `[0,1]`, a uint8 lookup table. -/
structure CV.Valid (cv : CV) : Prop where
  gaussianBlurK : ∀ img k, (cv.gaussianBlurK img k).ValidU8
  gaussianBlurS : ∀ img s, (cv.gaussianBlurS img s).ValidU8
  boxBlur : ∀ img k, (cv.boxBlur img k).ValidU8
  medianBlur : ∀ img k, (cv.medianBlur img k).ValidU8
  bilateral : ∀ img d sc ss, (cv.bilateral img d sc ss).ValidU8
  canny : ∀ img t1 t2, (cv.canny img t1 t2).ValidU8
  bgr2gray : ∀ img, (cv.bgr2gray img).ValidU8
  gray2bgr : ∀ img, (cv.gray2bgr img).ValidU8
  filter2D : ∀ ker img, (cv.filter2D ker img).ValidU8
  colorTransform : ∀ m img, (cv.colorTransform m img).ValidU8
  bgr2hsv : ∀ img, (cv.bgr2hsv img).ValidU8
  hsv2bgr : ∀ img, (cv.hsv2bgr img).ValidU8
  resizeLinear : ∀ img w h, (cv.resizeLinear img w h).ValidU8
  resizeNearest : ∀ img w h, (cv.resizeNearest img w h).ValidU8
  radialMask : ∀ h w s, ∀ q ∈ cv.radialMask h w s, 0 ≤ q ∧ q ≤ 1
  blurMaskF : ∀ m s, (∀ q ∈ m, 0 ≤ q ∧ q ≤ 1) → ∀ q ∈ cv.blurMaskF m s, 0 ≤ q ∧ q ≤ 1
  gammaTable : ∀ g, ∀ v ∈ cv.gammaTable g, v ≤ 255

/-- `(img.astype(np.float32) * np.dstack([mask] * 3)).astype(np.uint8)`:
multiply every sample by the mask value of its pixel, then cast back. -/
def applyMask3 (img : Image) (mask : FImage) : Image :=
  ⟨img.h, img.w, idxMap (fun i v => u8cast ((v : ℚ) * mask.getD (i / 3) 0)) img.data⟩

namespace FilterEngine

/-- Core of `FilterEngine.gaussian_blur` (the fully-transformed variant that
is blended against the input): kernel size `max(1, min(int(t*50) | 1, 51))`. -/
def gaussianBlurCore (cv : CV) (image : Image) (intensity : ℚ) : Image :=
  let ksize := max 1 (min ((truncQ (intensity * 50)).toNat.lor 1) 51)
  cv.gaussianBlurK image ksize

def gaussian_blur (cv : CV) (image : Image) (intensity : ℚ) : Image :=
  if intensity ≤ 0 then image
  else blend image (gaussianBlurCore cv image intensity) intensity

/-- Core of `box_blur`: kernel size `max(1, min(int(t*40) | 1, 41))`. -/
def boxBlurCore (cv : CV) (image : Image) (intensity : ℚ) : Image :=
  let ksize := max 1 (min ((truncQ (intensity * 40)).toNat.lor 1) 41)
  cv.boxBlur image ksize

def box_blur (cv : CV) (image : Image) (intensity : ℚ) : Image :=
  if intensity ≤ 0 then image
  else blend image (boxBlurCore cv image intensity) intensity

/-- Core of `median_blur`: kernel size `max(3, min(int(t*30) | 1, 31))`. -/
def medianBlurCore (cv : CV) (image : Image) (intensity : ℚ) : Image :=
  let ksize := max 3 (min ((truncQ (intensity * 30)).toNat.lor 1) 31)
  cv.medianBlur image ksize

def median_blur (cv : CV) (image : Image) (intensity : ℚ) : Image :=
  if intensity ≤ 0 then image
  else blend image (medianBlurCore cv image intensity) intensity

/-- Core of `sharpen`: unsharp mask with fixed sigma 3,
`addWeighted(image, 1.5, gaussian, -0.5, 0)`. -/
def sharpenCore (cv : CV) (image : Image) (_intensity : ℚ) : Image :=
  let gaussian := cv.gaussianBlurS image 3
  addWeighted image 1.5 gaussian (-0.5) 0

def sharpen (cv : CV) (image : Image) (intensity : ℚ) : Image :=
  if intensity ≤ 0 then image
  else blend image (sharpenCore cv image intensity) intensity

/-- Core of `unsharp_mask`: sigma `1 + 4t`, amount `0.5 + 2t`; the trailing
`np.clip(..).astype(np.uint8)` of the source is a no-op on the already
saturated `addWeighted` result. -/
def unsharpCore (cv : CV) (image : Image) (intensity : ℚ) : Image :=
  let sigma := 1 + intensity * 4
  let amount := 0.5 + intensity * 2
  let gaussian := cv.gaussianBlurS image sigma
  addWeighted image (1 + amount) gaussian (-amount) 0

def unsharp_mask (cv : CV) (image : Image) (intensity : ℚ) : Image :=
  if intensity ≤ 0 then image
  else blend image (unsharpCore cv image intensity) intensity

/-- Core of `edge_detect`: Canny on the luminance with thresholds
`int(50*(1-t*0.5))` and `int(150*(1-t*0.5))`, converted back to BGR. -/
def edgeCore (cv : CV) (image : Image) (intensity : ℚ) : Image :=
  let gray := cv.bgr2gray image
  let threshold1 := truncQ (50 * (1 - intensity * 0.5))
  let threshold2 := truncQ (150 * (1 - intensity * 0.5))
  cv.gray2bgr (cv.canny gray threshold1 threshold2)

def edge_detect (cv : CV) (image : Image) (intensity : ℚ) : Image :=
  if intensity ≤ 0 then image
  else blend image (edgeCore cv image intensity) intensity

def embossKernel : List (List ℚ) := [[-2, -1, 0], [-1, 1, 1], [0, 1, 2]]

/-- Core of `emboss`: `filter2D` output plus 128 (NumPy uint8 addition wraps
modulo 256), then the source's `np.clip(.., 0, 255)` (a no-op after the wrap). -/
def embossCore (cv : CV) (image : Image) (_intensity : ℚ) : Image :=
  let embossed := cv.filter2D embossKernel image
  ⟨embossed.h, embossed.w, embossed.data.map (fun v => min 255 ((v + 128) % 256))⟩

def emboss (cv : CV) (image : Image) (intensity : ℚ) : Image :=
  if intensity ≤ 0 then image
  else blend image (embossCore cv image intensity) intensity

def sepiaMatrix : List (List ℚ) :=
  [[0.272, 0.534, 0.131], [0.349, 0.686, 0.168], [0.393, 0.769, 0.189]]

/-- Core of `sepia`: fixed colour-mix matrix; `cv2.transform` already
saturates to uint8, so the source's trailing clip is a no-op. -/
def sepiaCore (cv : CV) (image : Image) (_intensity : ℚ) : Image :=
  cv.colorTransform sepiaMatrix image

def sepia (cv : CV) (image : Image) (intensity : ℚ) : Image :=
  if intensity ≤ 0 then image
  else blend image (sepiaCore cv image intensity) intensity

def vintageMatrix : List (List ℚ) :=
  [[0.30, 0.52, 0.15], [0.35, 0.67, 0.17], [0.38, 0.74, 0.19]]

/-- Core of `vintage`: sepia-like matrix, contrast fade
(`convertScaleAbs(alpha=0.9, beta=15)`), then a radial vignette of fixed
strength 0.4. -/
def vintageCore (cv : CV) (image : Image) (_intensity : ℚ) : Image :=
  let vimg := cv.colorTransform vintageMatrix image
  let vimg := convertScaleAbs vimg 0.9 15
  let mask := cv.radialMask image.h image.w 0.4
  applyMask3 vimg mask

def vintage (cv : CV) (image : Image) (intensity : ℚ) : Image :=
  if intensity ≤ 0 then image
  else blend image (vintageCore cv image intensity) intensity

/-- Core of `vignette`: radial mask of strength `0.3 + 0.7t`, feathered by a
Gaussian blur of sigma `max(w,h) * 0.05`, multiplied into the image. -/
def vignetteCore (cv : CV) (image : Image) (intensity : ℚ) : Image :=
  let strength := 0.3 + intensity * 0.7
  let mask := cv.radialMask image.h image.w strength
  let mask := cv.blurMaskF mask ((max image.w image.h : ℚ) * 0.05)
  applyMask3 image mask

def vignette (cv : CV) (image : Image) (intensity : ℚ) : Image :=
  if intensity ≤ 0 then image
  else blend image (vignetteCore cv image intensity) intensity

/-- Core of `hdr_effect`: boost the detail layer (image minus blur of sigma
15) by `1 + 2t`, re-add it, then scale HSV saturation by `1 + 0.3t`. -/
def hdrCore (cv : CV) (image : Image) (intensity : ℚ) : Image :=
  let blurred := cv.gaussianBlurS image 15
  let detail := satSub image blurred
  let boost := 1 + intensity * 2
  let detailBoosted := convertScaleAbs detail boost 0
  let hdr := satAdd image detailBoosted
  let hsv : FImage := (cv.bgr2hsv hdr).data.map (fun v => (v : ℚ))
  let hsv := idxMap (fun i v => if i % 3 = 1 then clip0255 (v * (1 + intensity * 0.3)) else v) hsv
  cv.hsv2bgr ⟨hdr.h, hdr.w, hsv.map u8cast⟩

def hdr_effect (cv : CV) (image : Image) (intensity : ℚ) : Image :=
  if intensity ≤ 0 then image
  else blend image (hdrCore cv image intensity) intensity

/-- Core of `pencil_sketch`: dodge blend of the luminance against its
inverted blur (sigma `10 + 40t`), via `cv2.divide(gray, 255-blur, scale=256)`. -/
def pencilCore (cv : CV) (image : Image) (intensity : ℚ) : Image :=
  let gray := cv.bgr2gray image
  let inv := imSub255 gray
  let sigma := 10 + intensity * 40
  let blurredInv := cv.gaussianBlurS inv sigma
  let sketch := cvDivide gray (imSub255 blurredInv) 256
  cv.gray2bgr sketch

def pencil_sketch (cv : CV) (image : Image) (intensity : ℚ) : Image :=
  if intensity ≤ 0 then image
  else blend image (pencilCore cv image intensity) intensity

/-- Apply `f` to `x` `n` times (the repeated bilateral passes of
`oil_painting`). -/
def iterApply (f : Image → Image) : Nat → Image → Image
  | 0, x => x
  | n + 1, x => iterApply f n (f x)

/-- Core of `oil_painting`: `max(1, int(3t))` bilateral passes with diameter
`int(5 + 10t)` and colour/space sigma `30 + 120t`. -/
def oilCore (cv : CV) (image : Image) (intensity : ℚ) : Image :=
  let d := (truncQ (5 + intensity * 10)).toNat
  let sigmaColor := 30 + intensity * 120
  let sigmaSpace := 30 + intensity * 120
  let passes := max 1 (truncQ (intensity * 3)).toNat
  iterApply (fun im => cv.bilateral im d sigmaColor sigmaSpace) passes image

def oil_painting (cv : CV) (image : Image) (intensity : ℚ) : Image :=
  if intensity ≤ 0 then image
  else blend image (oilCore cv image intensity) intensity

/-- Core of `pixelate`: block size `max(2, int(64t))`; shrink with bilinear
interpolation and grow back with nearest neighbour. -/
def pixelateCore (cv : CV) (image : Image) (intensity : ℚ) : Image :=
  let pixelSize := max 2 (truncQ (intensity * 64)).toNat
  let smallW := max 1 (image.w / pixelSize)
  let smallH := max 1 (image.h / pixelSize)
  let small := cv.resizeLinear image smallW smallH
  cv.resizeNearest small image.w image.h

def pixelate (cv : CV) (image : Image) (intensity : ℚ) : Image :=
  if intensity ≤ 0 then image
  else blend image (pixelateCore cv image intensity) intensity

/-- Core of `posterize`: quantize to `max(2, int(16 - 14t))` levels; NumPy
uint8 arithmetic wraps modulo 256 and the final clip is then a no-op. -/
def posterizeCore (_cv : CV) (image : Image) (intensity : ℚ) : Image :=
  let levels := max 2 (truncQ (16 - intensity * 14)).toNat
  let step := 256 / levels
  ⟨image.h, image.w, image.data.map (fun v => min 255 ((v / step * step + step / 2) % 256))⟩

def posterize (cv : CV) (image : Image) (intensity : ℚ) : Image :=
  if intensity ≤ 0 then image
  else blend image (posterizeCore cv image intensity) intensity

/-- Core of `warm_filter`: shift blue down by `30t`, green up by `30t*0.3`,
red up by `30t`, each clipped to `[0,255]`. -/
def warmCore (_cv : CV) (image : Image) (intensity : ℚ) : Image :=
  let strength := intensity * 30
  ⟨image.h, image.w, idxMap (fun i v =>
    if i % 3 = 0 then toU8 ((v : ℚ) - strength)
    else if i % 3 = 1 then toU8 ((v : ℚ) + strength * 0.3)
    else toU8 ((v : ℚ) + strength)) image.data⟩

def warm_filter (cv : CV) (image : Image) (intensity : ℚ) : Image :=
  if intensity ≤ 0 then image
  else blend image (warmCore cv image intensity) intensity

/-- Core of `cool_filter`: shift blue up by `30t` and red down by `30t`
(clipped); the green channel only makes the float/uint8 round trip. -/
def coolCore (_cv : CV) (image : Image) (intensity : ℚ) : Image :=
  let strength := intensity * 30
  ⟨image.h, image.w, idxMap (fun i v =>
    if i % 3 = 0 then toU8 ((v : ℚ) + strength)
    else if i % 3 = 2 then toU8 ((v : ℚ) - strength)
    else u8cast (v : ℚ)) image.data⟩

def cool_filter (cv : CV) (image : Image) (intensity : ℚ) : Image :=
  if intensity ≤ 0 then image
  else blend image (coolCore cv image intensity) intensity

/-- Core of `dramatic`: contrast boost `convertScaleAbs(1 + 0.5t, -10t)`,
HSV saturation scaled by `1 - 0.4t` (cast back without clip, so it wraps),
then a radial vignette of strength `0.5t`. -/
def dramaticCore (cv : CV) (image : Image) (intensity : ℚ) : Image :=
  let d1 := convertScaleAbs image (1 + intensity * 0.5) (-10 * intensity)
  let hsv : FImage := (cv.bgr2hsv d1).data.map (fun v => (v : ℚ))
  let hsv := idxMap (fun i v => if i % 3 = 1 then v * (1 - intensity * 0.4) else v) hsv
  let d2 := cv.hsv2bgr ⟨d1.h, d1.w, hsv.map u8cast⟩
  let mask := cv.radialMask d2.h d2.w (0.5 * intensity)
  applyMask3 d2 mask

def dramatic (cv : CV) (image : Image) (intensity : ℚ) : Image :=
  if intensity ≤ 0 then image
  else blend image (dramaticCore cv image intensity) intensity

/-- The name-to-method dispatch table of `FilterEngine.apply_filter`. -/
def filterMap (cv : CV) : List (String × (Image → ℚ → Image)) :=
  [("gaussian_blur", gaussian_blur cv),
   ("box_blur", box_blur cv),
   ("median_blur", median_blur cv),
   ("sharpen", sharpen cv),
   ("unsharp_mask", unsharp_mask cv),
   ("edge_detect", edge_detect cv),
   ("emboss", emboss cv),
   ("sepia", sepia cv),
   ("vintage", vintage cv),
   ("vignette", vignette cv),
   ("hdr_effect", hdr_effect cv),
   ("pencil_sketch", pencil_sketch cv),
   ("oil_painting", oil_painting cv),
   ("pixelate", pixelate cv),
   ("posterize", posterize cv),
   ("warm_filter", warm_filter cv),
   ("cool_filter", cool_filter cv),
   ("dramatic", dramatic cv)]

/-- `FilterEngine.apply_filter`: dispatch by name; an unknown name returns an
unmodified copy of the input. -/
def apply_filter (cv : CV) (image : Image) (filterName : String) (intensity : ℚ) : Image :=
  match (filterMap cv).lookup filterName with
  | none => image
  | some f => f image intensity

/-- The 18 known filter identifiers. -/
def knownFilterNames : List String :=
  ["gaussian_blur", "box_blur", "median_blur", "sharpen", "unsharp_mask",
   "edge_detect", "emboss", "sepia", "vintage", "vignette", "hdr_effect",
   "pencil_sketch", "oil_painting", "pixelate", "posterize", "warm_filter",
   "cool_filter", "dramatic"]

end FilterEngine

namespace NoiseEngine

/-- `NoiseEngine.gaussian`: additive noise of standard deviation `80t`;
result clipped to `[0,255]`.  The random field produced by
`_generate_noise_layer` is abstracted as `cv.noiseLayer`. -/
def gaussian (cv : CV) (image : Image) (intensity : ℚ) (monochrome : Bool) (scale : ℚ) : Image :=
  if intensity ≤ 0 then image
  else
    let sigma := intensity * 80
    let noise := cv.noiseLayer image.h image.w monochrome scale
    ⟨image.h, image.w, List.zipWith (fun v n => toU8 ((v : ℚ) + n * sigma)) image.data noise⟩

/-- `NoiseEngine.salt_pepper`: with total probability `0.2t` force a pixel
(or, in colour mode, a random subset of its channels) to 255 (salt, mask
below `prob/2`) or 0 (pepper, mask above `1 - prob/2`); the pepper pass runs
after the salt pass, so it wins if both masks hit.  Random masks are
abstracted as `cv.spMask` / `cv.spChan`. -/
def salt_pepper (cv : CV) (image : Image) (intensity : ℚ) (monochrome : Bool) (scale : ℚ) : Image :=
  if intensity ≤ 0 then image
  else
    let prob := intensity * 0.20
    let mask := cv.spMask image.h image.w scale
    let data :=
      if monochrome then
        idxMap (fun i v =>
          if mask.getD (i / 3) 1 > 1 - prob / 2 then 0
          else if mask.getD (i / 3) 1 < prob / 2 then 255
          else v) image.data
      else
        idxMap (fun i v =>
          if mask.getD (i / 3) 1 > 1 - prob / 2 ∧
              (cv.spChan image.h image.w (3 + i % 3)).getD (i / 3) 0 > 1/2 then 0
          else if mask.getD (i / 3) 1 < prob / 2 ∧
              (cv.spChan image.h image.w (i % 3)).getD (i / 3) 0 > 1/2 then 255
          else v) image.data
    ⟨image.h, image.w, data⟩

/-- `NoiseEngine.poisson`: sample `Poisson(pixel/lam) * lam` with
`lam = max(1, 256/(1+50t))`, clip, then blend original and noisy at weight
`t` via `cv2.addWeighted`. -/
def poisson (cv : CV) (image : Image) (intensity : ℚ) (_monochrome : Bool) (_scale : ℚ) : Image :=
  if intensity ≤ 0 then image
  else
    let lam := max 1 (256 / (1 + intensity * 50))
    let sampled := cv.poissonSample (image.data.map (fun v => (v : ℚ) / lam))
    let noisy : Image := ⟨image.h, image.w, sampled.map (fun n => toU8 (n * lam))⟩
    addWeighted image (1 - intensity) noisy intensity 0

/-- `NoiseEngine.speckle`: multiplicative noise
`pixel + pixel * noise * (0.5t)`, clipped. -/
def speckle (cv : CV) (image : Image) (intensity : ℚ) (monochrome : Bool) (scale : ℚ) : Image :=
  if intensity ≤ 0 then image
  else
    let noise := cv.noiseLayer image.h image.w monochrome scale
    let variance := intensity * 0.5
    ⟨image.h, image.w,
      List.zipWith (fun v n => toU8 ((v : ℚ) + (v : ℚ) * n * variance)) image.data noise⟩

/-- `NoiseEngine.uniform`: additive noise drawn from `U(-80t, 80t)`
(abstracted as `cv.uniformNoise`), clipped. -/
def uniform (cv : CV) (image : Image) (intensity : ℚ) (monochrome : Bool) (scale : ℚ) : Image :=
  if intensity ≤ 0 then image
  else
    let amplitude := intensity * 80
    let noise := cv.uniformNoise amplitude image.h image.w monochrome scale
    ⟨image.h, image.w, List.zipWith (fun v n => toU8 ((v : ℚ) + n)) image.data noise⟩

/-- `NoiseEngine.film_grain`: luminance-weighted additive grain
`pixel + grain * (60t) * (1 - luminance*0.6)`, clipped. -/
def film_grain (cv : CV) (image : Image) (intensity : ℚ) (monochrome : Bool) (scale : ℚ) : Image :=
  if intensity ≤ 0 then image
  else
    let grain := cv.noiseLayer image.h image.w monochrome scale
    let gray := (cv.bgr2gray image).data.map (fun v => (v : ℚ) / 255)
    let sigma := intensity * 60
    ⟨image.h, image.w,
      idxMap (fun i p => toU8 ((p.1 : ℚ) + p.2 * sigma * (1 - gray.getD (i / 3) 0 * 0.6)))
        (image.data.zip grain)⟩

/-- `NoiseEngine.color_noise`: per-channel independent additive Gaussian
noise of standard deviation `50t`, clipped; the monochrome flag is ignored. -/
def color_noise (cv : CV) (image : Image) (intensity : ℚ) (_monochrome : Bool) (scale : ℚ) : Image :=
  if intensity ≤ 0 then image
  else
    let sigma := intensity * 50
    let noise := cv.colorNoiseLayer image.h image.w scale
    ⟨image.h, image.w, List.zipWith (fun v n => toU8 ((v : ℚ) + n * sigma)) image.data noise⟩

/-- The type-to-method dispatch table of `NoiseEngine.apply_noise`. -/
def noiseMap (cv : CV) : List (String × (Image → ℚ → Bool → ℚ → Image)) :=
  [("gaussian", gaussian cv),
   ("salt_pepper", salt_pepper cv),
   ("poisson", poisson cv),
   ("speckle", speckle cv),
   ("uniform", uniform cv),
   ("film_grain", film_grain cv),
   ("color_noise", color_noise cv)]

/-- `NoiseEngine.apply_noise`: dispatch by type name; an unknown type
returns an unmodified copy. -/
def apply_noise (cv : CV) (image : Image) (noiseType : String) (intensity : ℚ)
    (monochrome : Bool) (scale : ℚ) : Image :=
  match (noiseMap cv).lookup noiseType with
  | none => image
  | some f => f image intensity monochrome scale

/-- The 7 known noise identifiers. -/
def knownNoiseTypes : List String :=
  ["gaussian", "salt_pepper", "poisson", "speckle", "uniform", "film_grain", "color_noise"]

end NoiseEngine

/-- The output sample is within rounding distance of the exact linear
interpolation `a*(1-t) + b*t` of the claim. -/
def RoundingClose (t : ℚ) (a b r : Nat) : Prop :=
  |(r : ℚ) - ((a : ℚ) * (1 - t) + (b : ℚ) * t)| ≤ 1 / 2

/-- The blending contract of the specification, for a filter `F` whose
fully-transformed variant is `core`: identity at `t ≤ 0`, the variant itself
at `t ≥ 1`, and for `t ∈ (0,1)` the per-sample `cv2.addWeighted`
interpolation, which stays within rounding tolerance of
`original*(1-t) + filtered*t`. -/
def BlendContract (F core : Image → ℚ → Image) : Prop :=
  ∀ image t,
    (t ≤ 0 → F image t = image)
    ∧ (1 ≤ t → F image t = core image t)
    ∧ (0 < t → t < 1 →
        (F image t).data =
          List.zipWith (fun a b => addWeightedPx a (1 - t) b t 0)
            image.data (core image t).data)
    ∧ (0 < t → t < 1 → image.ValidU8 → (core image t).ValidU8 →
        List.Forall₂ (fun p r => RoundingClose t p.1 p.2 r)
          (image.data.zip (core image t).data) (F image t).data)

/-- A small concrete test image (one BGR pixel). -/
def exImg : Image := ⟨1, 1, [10, 100, 200]⟩

/-- A concrete instantiation of the abstract OpenCV / NumPy primitives,
used to witness that the hypotheses of the theorems are satisfiable. -/
def cvEx : CV where
  gaussianBlurK := fun _ _ => ⟨1, 1, [0, 0, 0]⟩
  gaussianBlurS := fun _ _ => ⟨1, 1, [0, 0, 0]⟩
  boxBlur := fun _ _ => ⟨1, 1, [0, 0, 0]⟩
  medianBlur := fun _ _ => ⟨1, 1, [0, 0, 0]⟩
  bilateral := fun _ _ _ _ => ⟨1, 1, [0, 0, 0]⟩
  canny := fun _ _ _ => ⟨1, 1, [0, 0, 0]⟩
  bgr2gray := fun _ => ⟨1, 1, [0]⟩
  gray2bgr := fun _ => ⟨1, 1, [0, 0, 0]⟩
  filter2D := fun _ _ => ⟨1, 1, [0, 0, 0]⟩
  colorTransform := fun _ _ => ⟨1, 1, [0, 0, 0]⟩
  bgr2hsv := fun _ => ⟨1, 1, [0, 0, 0]⟩
  hsv2bgr := fun _ => ⟨1, 1, [0, 0, 0]⟩
  resizeLinear := fun _ _ _ => ⟨1, 1, [0, 0, 0]⟩
  resizeNearest := fun _ _ _ => ⟨1, 1, [0, 0, 0]⟩
  radialMask := fun _ _ _ => []
  blurMaskF := fun m _ => m
  noiseLayer := fun _ _ _ _ => []
  colorNoiseLayer := fun _ _ _ => []
  spMask := fun _ _ _ => []
  spChan := fun _ _ _ => []
  poissonSample := fun l => l
  uniformNoise := fun _ _ _ _ _ => []
  pow2 := fun _ => 1
  gammaTable := fun _ => List.replicate 256 0
  cvFlip := fun m _ => m
  cvWarpRotate := fun m _ => m
  cvResize := fun m _ _ _ => m

/-- `ImageProcessor._noise_params`. -/
structure NoiseParams where
  type : String
  intensity : ℚ
  monochrome : Bool
  scale : ℚ
deriving DecidableEq, Repr

namespace ImageProcessor

/-- The initial / reset adjustments dictionary (insertion-ordered, all
neutral; gamma's neutral is 100). -/
def defaultAdjustments : List (String × ℚ) :=
  [("brightness", 0), ("contrast", 0), ("saturation", 0),
   ("hue", 0), ("gamma", 100), ("exposure", 0),
   ("temperature", 0), ("tint", 0),
   ("highlights", 0), ("shadows", 0),
   ("clarity", 0), ("vibrance", 0), ("sharpness", 0)]

/-- The initial / reset noise parameters. -/
def defaultNoise : NoiseParams := ⟨"gaussian", 0, true, 1⟩

/-- `ImageProcessor.get_adjustment` (`dict.get(key, 0)`); the pipeline reads
`self._adjustments[key]` directly, but the dictionary always carries all 13
keys, so the same lookup models both reads. -/
def get_adjustment (adj : List (String × ℚ)) (key : String) : ℚ :=
  (adj.lookup key).getD 0

/-- `ImageProcessor.set_adjustment`: update the value only if the key is
already present in the dictionary. -/
def set_adjustment (adj : List (String × ℚ)) (key : String) (value : ℚ) :
    List (String × ℚ) :=
  if adj.any (fun p => p.1 == key) then
    adj.map (fun p => if p.1 = key then (key, value) else p)
  else adj

/-- `ImageProcessor.set_filter`: intensity ≤ 0 removes the entry; otherwise
the entry is stored (in place if present, appended otherwise — Python dicts
keep insertion order). -/
def set_filter (fs : List (String × Int)) (name : String) (intensity : Int) :
    List (String × Int) :=
  if intensity ≤ 0 then fs.filter (fun p => !(p.1 == name))
  else if fs.any (fun p => p.1 == name) then
    fs.map (fun p => if p.1 = name then (name, intensity) else p)
  else fs ++ [(name, intensity)]

/-- `ImageProcessor.get_filter_intensity`. -/
def get_filter_intensity (fs : List (String × Int)) (name : String) : Int :=
  (fs.lookup name).getD 0

/-- `ImageProcessor.has_pending_changes`: some adjustment value that is
neither 0 nor 100, an active filter, or positive noise intensity. -/
def has_pending_changes (adj : List (String × ℚ)) (fs : List (String × Int))
    (noise : NoiseParams) : Bool :=
  adj.any (fun p => p.2 != 0 && p.2 != 100) || !fs.isEmpty || decide (0 < noise.intensity)

/-- Brightness / contrast block of `_apply_adjustments`:
`convertScaleAbs(alpha = 1 + contrast/100, beta = brightness * 2.55)`. -/
def stepBrightnessContrast (adj : List (String × ℚ)) (image : Image) : Image :=
  let brightness := get_adjustment adj "brightness"
  let contrast := get_adjustment adj "contrast"
  if brightness ≠ 0 ∨ contrast ≠ 0 then
    convertScaleAbs image (1 + contrast / 100) (brightness * 2.55)
  else image

/-- Exposure block: multiply by `2^(exposure/100)` and clip. -/
def stepExposure (cv : CV) (adj : List (String × ℚ)) (image : Image) : Image :=
  let exposure := get_adjustment adj "exposure" / 100
  if exposure ≠ 0 then
    ⟨image.h, image.w, image.data.map (fun v => toU8 ((v : ℚ) * cv.pow2 exposure))⟩
  else image

/-- Gamma block: power-law lookup table, applied when `|gamma−1| > 0.01`. -/
def stepGamma (cv : CV) (adj : List (String × ℚ)) (image : Image) : Image :=
  let gamma := get_adjustment adj "gamma" / 100
  if 1 / 100 < |gamma - 1| then
    let table := cv.gammaTable (1 / gamma)
    ⟨image.h, image.w, image.data.map (fun v => table.getD v 0)⟩
  else image

/-- Combined HSV block: hue shift (wrapped into [0,180)), saturation scale,
vibrance boost of low-saturation pixels, then clip and convert back. -/
def stepHSV (cv : CV) (adj : List (String × ℚ)) (image : Image) : Image :=
  let saturation := get_adjustment adj "saturation"
  let hue := get_adjustment adj "hue"
  let vibrance := get_adjustment adj "vibrance"
  if saturation ≠ 0 ∨ hue ≠ 0 ∨ vibrance ≠ 0 then
    let hsv0 : FImage := (cv.bgr2hsv image).data.map (fun v => (v : ℚ))
    let hsv1 := if hue ≠ 0 then
        idxMap (fun i v => if i % 3 = 0 then qmod (v + hue / 2) 180 else v) hsv0
      else hsv0
    let hsv2 := if saturation ≠ 0 then
        idxMap (fun i v => if i % 3 = 1 then clip0255 (v * (1 + saturation / 100)) else v) hsv1
      else hsv1
    let hsv3 := if vibrance ≠ 0 then
        idxMap (fun i v =>
          if i % 3 = 1 then clip0255 (v + vibrance / 100 * (1 - v / 255) * 50) else v) hsv2
      else hsv2
    cv.hsv2bgr ⟨image.h, image.w, hsv3.map toU8⟩
  else image

/-- Temperature block: blue down / red up by `temperature * 0.3`. -/
def stepTemperature (adj : List (String × ℚ)) (image : Image) : Image :=
  let temperature := get_adjustment adj "temperature"
  if temperature ≠ 0 then
    let shift := temperature * 0.3
    ⟨image.h, image.w, idxMap (fun i v =>
      if i % 3 = 0 then toU8 ((v : ℚ) - shift)
      else if i % 3 = 2 then toU8 ((v : ℚ) + shift)
      else u8cast (v : ℚ)) image.data⟩
  else image

/-- Tint block: green shifted by `tint * 0.3`. -/
def stepTint (adj : List (String × ℚ)) (image : Image) : Image :=
  let tint := get_adjustment adj "tint"
  if tint ≠ 0 then
    let shift := tint * 0.3
    ⟨image.h, image.w, idxMap (fun i v =>
      if i % 3 = 1 then toU8 ((v : ℚ) + shift) else u8cast (v : ℚ)) image.data⟩
  else image

/-- `ImageProcessor._adjust_tonal_range`: a luminance mask selects bright
(highlights) or dark (shadows) pixels; `value*2.55*mask` is added and the
result clipped. -/
def adjust_tonal_range (cv : CV) (image : Image) (value : ℚ) (isHighlights : Bool) : Image :=
  let gray := (cv.bgr2gray image).data.map (fun v => (v : ℚ) / 255)
  ⟨image.h, image.w, idxMap (fun i v =>
    let m := if isHighlights then clip01 ((gray.getD (i / 3) 0 - 0.5) * 2)
      else clip01 ((0.5 - gray.getD (i / 3) 0) * 2)
    toU8 ((v : ℚ) + value * 2.55 * m)) image.data⟩

def stepHighlights (cv : CV) (adj : List (String × ℚ)) (image : Image) : Image :=
  let highlights := get_adjustment adj "highlights"
  if highlights ≠ 0 then adjust_tonal_range cv image highlights true else image

def stepShadows (cv : CV) (adj : List (String × ℚ)) (image : Image) : Image :=
  let shadows := get_adjustment adj "shadows"
  if shadows ≠ 0 then adjust_tonal_range cv image shadows false else image

/-- `ImageProcessor._apply_clarity`: add the detail layer (image minus blur
of sigma 10) scaled by `value/50`; the final clip is a no-op on the
saturated result. -/
def apply_clarity (cv : CV) (image : Image) (value : ℚ) : Image :=
  let blurred := cv.gaussianBlurS image 10
  let detail := satSub image blurred
  let factor := value / 50
  let enhanced := addWeighted image 1 detail factor 0
  ⟨enhanced.h, enhanced.w, enhanced.data.map (fun v => min 255 v)⟩

def stepClarity (cv : CV) (adj : List (String × ℚ)) (image : Image) : Image :=
  let clarity := get_adjustment adj "clarity"
  if clarity ≠ 0 then apply_clarity cv image clarity else image

/-- Sharpness block: unsharp mask with fixed sigma 2, amount `sharpness/100`. -/
def stepSharpness (cv : CV) (adj : List (String × ℚ)) (image : Image) : Image :=
  let sharpness := get_adjustment adj "sharpness"
  if 0 < sharpness then
    let amount := sharpness / 100
    let blurred := cv.gaussianBlurS image 2
    let sharpened := addWeighted image (1 + amount) blurred (-amount) 0
    ⟨sharpened.h, sharpened.w, sharpened.data.map (fun v => min 255 v)⟩
  else image

/-- `ImageProcessor._apply_adjustments`: the fixed sequential sub-order of
the adjustments stage (each block fires only away from its neutral value). -/
def apply_adjustments (cv : CV) (adj : List (String × ℚ)) (image : Image) : Image :=
  stepSharpness cv adj (stepClarity cv adj (stepShadows cv adj (stepHighlights cv adj
    (stepTint adj (stepTemperature adj (stepHSV cv adj (stepGamma cv adj
      (stepExposure cv adj (stepBrightnessContrast adj image)))))))))

/-- `ImageProcessor._apply_filters`: left-to-right over the insertion-ordered
filter dictionary, skipping entries with intensity ≤ 0, normalizing to
`[0,1]`. -/
def apply_filters (cv : CV) (fs : List (String × Int)) (image : Image) : Image :=
  fs.foldl (fun result p =>
    if 0 < p.2 then FilterEngine.apply_filter cv result p.1 ((p.2 : ℚ) / 100)
    else result) image

/-- `ImageProcessor._apply_noise`: a single noise pass when intensity > 0. -/
def apply_noise_stage (cv : CV) (noise : NoiseParams) (image : Image) : Image :=
  if noise.intensity ≤ 0 then image
  else NoiseEngine.apply_noise cv image noise.type (noise.intensity / 100)
    noise.monochrome noise.scale

/-- `ImageProcessor._run_pipeline`: Adjustments, then Filters, then Noise. -/
def run_pipeline (cv : CV) (adj : List (String × ℚ)) (fs : List (String × Int))
    (noise : NoiseParams) (source : Image) : Image :=
  apply_noise_stage cv noise (apply_filters cv fs (apply_adjustments cv adj source))

end ImageProcessor

/-- `MAX_HISTORY_STATES` from `app/utils/constants.py`. -/
def MAX_HISTORY_STATES : Nat := 30

/-- `HistoryManager`: the undo stack (oldest first, current state last),
the redo stack, and the retention cap.  The snapshot type is a parameter;
the source stores full image copies. -/
structure HistoryManager (α : Type) where
  undoStack : List α
  redoStack : List α
  maxStates : Nat

namespace HistoryManager

/-- `HistoryManager.__init__(max_states=MAX_HISTORY_STATES)`. -/
def new (α : Type) (maxStates : Nat := MAX_HISTORY_STATES) : HistoryManager α :=
  ⟨[], [], maxStates⟩

/-- `HistoryManager.push_state`: a `None` image is ignored; otherwise the
copy is appended, the oldest state is evicted past the cap, and the redo
stack is cleared. -/
def push_state (hm : HistoryManager α) (image : Option α) : HistoryManager α :=
  match image with
  | none => hm
  | some img =>
    let undo := hm.undoStack ++ [img]
    let undo := if hm.maxStates < undo.length then undo.drop 1 else undo
    ⟨undo, [], hm.maxStates⟩

/-- `HistoryManager.undo`: requires at least 2 retained states; moves the
current state to the redo stack and returns (a copy of) the predecessor. -/
def undo (hm : HistoryManager α) : Option α × HistoryManager α :=
  if hm.undoStack.length < 2 then (none, hm)
  else
    match hm.undoStack.getLast? with
    | none => (none, hm)
    | some current =>
      let rest := hm.undoStack.dropLast
      (rest.getLast?, ⟨rest, hm.redoStack ++ [current], hm.maxStates⟩)

/-- `HistoryManager.redo`: pops the redo stack back onto the undo stack and
returns the state. -/
def redo (hm : HistoryManager α) : Option α × HistoryManager α :=
  match hm.redoStack.getLast? with
  | none => (none, hm)
  | some state =>
    (some state, ⟨hm.undoStack ++ [state], hm.redoStack.dropLast, hm.maxStates⟩)

/-- `HistoryManager.can_undo`. -/
def can_undo (hm : HistoryManager α) : Bool := decide (2 ≤ hm.undoStack.length)

/-- `HistoryManager.can_redo`. -/
def can_redo (hm : HistoryManager α) : Bool := decide (0 < hm.redoStack.length)

/-- `HistoryManager.undo_count` (`max(0, len - 1)`; Nat subtraction models
the clamp at 0). -/
def undo_count (hm : HistoryManager α) : Nat := hm.undoStack.length - 1

/-- `HistoryManager.clear`. -/
def clear (hm : HistoryManager α) : HistoryManager α := ⟨[], [], hm.maxStates⟩

end HistoryManager

/-- One call against a `HistoryManager`. -/
inductive HOp (α : Type) where
  | push (img : Option α)
  | undoOp
  | redoOp
  | clearOp

/-- Run a sequence of history operations (discarding returned snapshots). -/
def runOps (ops : List (HOp α)) (hm : HistoryManager α) : HistoryManager α :=
  ops.foldl (fun h op =>
    match op with
    | HOp.push i => h.push_state i
    | HOp.undoOp => (h.undo).2
    | HOp.redoOp => (h.redo).2
    | HOp.clearOp => h.clear) hm

/-- The preserved size invariant: undo and redo entries together never
exceed the cap. -/
def HistoryManager.SizeInv (hm : HistoryManager α) : Prop :=
  hm.undoStack.length + hm.redoStack.length ≤ hm.maxStates

namespace TransformEngine

/-- `cv2` interpolation codes. -/
def INTER_NEAREST : Nat := 0
def INTER_LINEAR : Nat := 1
def INTER_CUBIC : Nat := 2
def INTER_AREA : Nat := 3
def INTER_LANCZOS4 : Nat := 4

/-- `TransformEngine.INTERPOLATION_MAP`. -/
def INTERPOLATION_MAP : List (String × Nat) :=
  [("nearest", INTER_NEAREST), ("bilinear", INTER_LINEAR), ("bicubic", INTER_CUBIC),
   ("lanczos", INTER_LANCZOS4), ("area", INTER_AREA)]

/-- `TransformEngine.resize`: non-positive target dimensions are a no-op
returning the input; otherwise delegate to `cv2.resize` with the selected
interpolation (unknown method falls back to Lanczos). -/
def resize (cv : CV) (image : RGBMat) (width height : Int) (method : String) : RGBMat :=
  if width ≤ 0 ∨ height ≤ 0 then image
  else cv.cvResize image width.toNat height.toNat
    ((INTERPOLATION_MAP.lookup method).getD INTER_LANCZOS4)

/-- `TransformEngine.rotate` (expand path): the rotation matrix, expanded
canvas and warp are computed by OpenCV, abstracted as `cv.cvWarpRotate`. -/
def rotate (cv : CV) (image : RGBMat) (angle : ℚ) : RGBMat :=
  cv.cvWarpRotate image angle

/-- `TransformEngine.flip_horizontal` (`cv2.flip(image, 1)`). -/
def flip_horizontal (cv : CV) (image : RGBMat) : RGBMat := cv.cvFlip image 1

/-- `TransformEngine.flip_vertical` (`cv2.flip(image, 0)`). -/
def flip_vertical (cv : CV) (image : RGBMat) : RGBMat := cv.cvFlip image 0

/-- `TransformEngine.crop`: `x`/`y` are clamped into `[0, w-1]`/`[0, h-1]`,
the far corner into the image; a degenerate clamped rectangle returns an
unmodified copy; otherwise `image[y1:y2, x1:x2]` is the row/column slice. -/
def crop (image : Mat α) (x y width height : Int) : Mat α :=
  let h : Int := image.length
  let w : Int := (image.headD []).length
  let x1 := max 0 (min x (w - 1))
  let y1 := max 0 (min y (h - 1))
  let x2 := min (x1 + width) w
  let y2 := min (y1 + height) h
  if x2 ≤ x1 ∨ y2 ≤ y1 then image
  else ((image.drop y1.toNat).take (y2 - y1).toNat).map
    (fun row => (row.drop x1.toNat).take (x2 - x1).toNat)

end TransformEngine

/-- `PREVIEW_MAX_WIDTH` / `PREVIEW_MAX_HEIGHT` from constants. -/
def PREVIEW_MAX_WIDTH : Nat := 1920
def PREVIEW_MAX_HEIGHT : Nat := 1080

/-- `create_preview` from `app/utils/image_utils.py`: images already
within the bounds are returned as a copy; larger images are scaled by
`min(max_w/w, max_h/h)` with area interpolation. -/
def create_preview (cv : CV) (img : RGBMat) (maxWidth maxHeight : Nat) : RGBMat :=
  let h := img.length
  let w := (img.headD []).length
  if w ≤ maxWidth ∧ h ≤ maxHeight then img
  else
    let scale := min ((maxWidth : ℚ) / w) ((maxHeight : ℚ) / h)
    let newW := (truncQ ((w : ℚ) * scale)).toNat
    let newH := (truncQ ((h : ℚ) * scale)).toNat
    cv.cvResize img newW newH TransformEngine.INTER_AREA

namespace ImageProcessor

/-- The mutable aggregate of `ImageProcessor` (the pixel buffers use the
row/column view consumed by the geometric transforms). -/
structure State where
  original : Option RGBMat
  previewOriginal : Option RGBMat
  processed : Option RGBMat
  history : HistoryManager RGBMat
  filePath : Option String
  adjustments : List (String × ℚ)
  filters : List (String × Int)
  noise : NoiseParams

/-- `ImageProcessor._reset_all_params`. -/
def reset_all_params (st : State) : State :=
  { st with adjustments := defaultAdjustments, filters := [], noise := defaultNoise }

/-- `ImageProcessor.apply_rotation`: replace the original, regenerate the
preview, push history; parameters untouched. -/
def apply_rotation (cv : CV) (st : State) (angle : ℚ) : State :=
  match st.original with
  | none => st
  | some img =>
    let rotated := TransformEngine.rotate cv img angle
    { st with
        original := some rotated
        previewOriginal :=
          some (create_preview cv rotated PREVIEW_MAX_WIDTH PREVIEW_MAX_HEIGHT)
        history := st.history.push_state (some rotated) }

/-- `ImageProcessor.apply_flip`: replace the original with the horizontal or
vertical flip, regenerate the preview, push history; parameters untouched. -/
def apply_flip (cv : CV) (st : State) (horizontal : Bool) : State :=
  match st.original with
  | none => st
  | some img =>
    let flipped := if horizontal then TransformEngine.flip_horizontal cv img
      else TransformEngine.flip_vertical cv img
    { st with
        original := some flipped
        previewOriginal :=
          some (create_preview cv flipped PREVIEW_MAX_WIDTH PREVIEW_MAX_HEIGHT)
        history := st.history.push_state (some flipped) }

/-- `ImageProcessor.apply_resize`: replace, regenerate preview, push
history, then reset all parameters. -/
def apply_resize (cv : CV) (st : State) (width height : Int) (method : String) : State :=
  match st.original with
  | none => st
  | some img =>
    let resized := TransformEngine.resize cv img width height method
    reset_all_params { st with
      original := some resized
      previewOriginal :=
        some (create_preview cv resized PREVIEW_MAX_WIDTH PREVIEW_MAX_HEIGHT)
      history := st.history.push_state (some resized) }

/-- `ImageProcessor.apply_crop`: replace, regenerate preview, push history,
then reset all parameters. -/
def apply_crop (cv : CV) (st : State) (x y w h : Int) : State :=
  match st.original with
  | none => st
  | some img =>
    let cropped := TransformEngine.crop img x y w h
    reset_all_params { st with
      original := some cropped
      previewOriginal :=
        some (create_preview cv cropped PREVIEW_MAX_WIDTH PREVIEW_MAX_HEIGHT)
      history := st.history.push_state (some cropped) }

end ImageProcessor

/-- A concrete loaded processor state for the witnesses. -/
def stEx : ImageProcessor.State :=
  ⟨some [[[1, 2, 3]]], none, none, HistoryManager.new RGBMat, none,
   ImageProcessor.defaultAdjustments, [], ImageProcessor.defaultNoise⟩

theorem clip0255_nonneg (q : ℚ) : 0 ≤ clip0255 q :=
  le_min (by norm_num) (le_max_left 0 q)

theorem clip0255_le (q : ℚ) : clip0255 q ≤ 255 := min_le_left _ _

theorem toU8_le (q : ℚ) : toU8 q ≤ 255 := by
  unfold toU8 truncQ
  rw [if_neg (not_lt.mpr (clip0255_nonneg q))]
  have h1 : ⌊clip0255 q⌋ < 256 := by
    rw [Int.floor_lt]
    calc clip0255 q ≤ 255 := clip0255_le q
    _ < ((256 : Int) : ℚ) := by norm_num
  omega

theorem u8cast_le (q : ℚ) : u8cast q ≤ 255 := by
  unfold u8cast
  omega

theorem satRound_le (q : ℚ) : satRound q ≤ 255 := by
  unfold satRound
  omega

theorem mem_idxMapFrom {f : Nat → α → β} {v : β} :
    ∀ {s : Nat} {l : List α}, v ∈ idxMapFrom f s l → ∃ i a, a ∈ l ∧ v = f i a := by
  intro s l
  induction l generalizing s with
  | nil => intro h; cases h
  | cons a as ih =>
    intro h
    rcases List.mem_cons.mp h with h1 | h1
    · exact ⟨s, a, List.mem_cons_self a as, h1⟩
    · rcases ih h1 with ⟨i, b, hb, hv⟩
      exact ⟨i, b, List.mem_cons_of_mem a hb, hv⟩

theorem mem_idxMap {f : Nat → α → β} {v : β} {l : List α}
    (h : v ∈ idxMap f l) : ∃ i a, a ∈ l ∧ v = f i a :=
  mem_idxMapFrom h

theorem mem_zipWith {f : α → β → γ} {v : γ} :
    ∀ {l1 : List α} {l2 : List β}, v ∈ List.zipWith f l1 l2 →
      ∃ a b, a ∈ l1 ∧ b ∈ l2 ∧ v = f a b := by
  intro l1
  induction l1 with
  | nil => intro l2 h; cases h
  | cons a as ih =>
    intro l2 h
    cases l2 with
    | nil => cases h
    | cons b bs =>
      rcases List.mem_cons.mp h with h1 | h1
      · exact ⟨a, b, List.mem_cons_self a as, List.mem_cons_self b bs, h1⟩
      · rcases ih h1 with ⟨x, y, hx, hy, hv⟩
        exact ⟨x, y, List.mem_cons_of_mem a hx, List.mem_cons_of_mem b hy, hv⟩

theorem blend_of_nonpos (o f : Image) (t : ℚ) (h : t ≤ 0) : blend o f t = o := if_pos h

theorem blend_of_one_le (o f : Image) (t : ℚ) (h : 1 ≤ t) : blend o f t = f := by
  unfold blend
  rw [if_neg (not_le.mpr (lt_of_lt_of_le one_pos h)), if_pos h]

theorem blend_mid (o f : Image) (t : ℚ) (h0 : 0 < t) (h1 : t < 1) :
    blend o f t = addWeighted o (1 - t) f t 0 := by
  unfold blend
  rw [if_neg (not_le.mpr h0), if_neg (not_le.mpr h1)]

theorem addWeightedPx_close (a b : Nat) (t : ℚ) (ha : a ≤ 255) (hb : b ≤ 255)
    (h0 : 0 < t) (h1 : t < 1) : RoundingClose t a b (addWeightedPx a (1 - t) b t 0) := by
  unfold RoundingClose addWeightedPx satRound roundQ
  have haq : (a : ℚ) ≤ 255 := by exact_mod_cast ha
  have hbq : (b : ℚ) ≤ 255 := by exact_mod_cast hb
  have ha0 : (0 : ℚ) ≤ (a : ℚ) := Nat.cast_nonneg a
  have hb0 : (0 : ℚ) ≤ (b : ℚ) := Nat.cast_nonneg b
  set x : ℚ := (a : ℚ) * (1 - t) + (b : ℚ) * t + 0 with hxdef
  have hx0 : 0 ≤ x := by
    have h1t : (0 : ℚ) ≤ 1 - t := by linarith
    have m1 := mul_nonneg ha0 h1t
    have m2 := mul_nonneg hb0 (le_of_lt h0)
    simp only [hxdef]
    linarith
  have hx255 : x ≤ 255 := by
    have m1 := mul_nonneg (by linarith : (0 : ℚ) ≤ 255 - (a : ℚ)) (by linarith : (0 : ℚ) ≤ 1 - t)
    have m2 := mul_nonneg (by linarith : (0 : ℚ) ≤ 255 - (b : ℚ)) (le_of_lt h0)
    simp only [hxdef]
    nlinarith
  have hfl : (⌊x + 1 / 2⌋ : ℚ) ≤ x + 1 / 2 := Int.floor_le _
  have hfg : x + 1 / 2 - 1 < (⌊x + 1 / 2⌋ : ℚ) := Int.sub_one_lt_floor _
  have h0f : 0 ≤ ⌊x + 1 / 2⌋ := by
    apply Int.le_floor.mpr
    push_cast
    linarith
  have h255f : ⌊x + 1 / 2⌋ ≤ 255 := by
    have hlt : ⌊x + 1 / 2⌋ < 256 := Int.floor_lt.mpr (by push_cast; linarith)
    omega
  rw [min_eq_right h255f, max_eq_right h0f]
  have hcast : ((⌊x + 1 / 2⌋.toNat : Nat) : ℚ) = ((⌊x + 1 / 2⌋ : Int) : ℚ) := by
    exact_mod_cast congrArg (fun z : Int => z) (Int.toNat_of_nonneg h0f)
  rw [abs_le]
  constructor
  · rw [hcast]; simp only [hxdef] at hfg; linarith
  · rw [hcast]; simp only [hxdef] at hfl; linarith

theorem forall2_zip_zipWith {f : α → β → γ} {R : α × β → γ → Prop} :
    ∀ (l1 : List α) (l2 : List β),
      (∀ a ∈ l1, ∀ b ∈ l2, R (a, b) (f a b)) →
      List.Forall₂ R (l1.zip l2) (List.zipWith f l1 l2) := by
  intro l1
  induction l1 with
  | nil => intro l2 _; simp
  | cons a as ih =>
    intro l2 hR
    cases l2 with
    | nil => simp
    | cons b bs =>
      refine List.Forall₂.cons (hR a (List.mem_cons_self a as) b (List.mem_cons_self b bs)) ?_
      exact ih bs (fun x hx y hy =>
        hR x (List.mem_cons_of_mem a hx) y (List.mem_cons_of_mem b hy))

theorem blendContract_mk (core : Image → ℚ → Image) (F : Image → ℚ → Image)
    (hF : ∀ img t, F img t = if t ≤ 0 then img else blend img (core img t) t) :
    BlendContract F core := by
  intro image t
  refine ⟨?_, ?_, ?_, ?_⟩
  · intro ht; rw [hF, if_pos ht]
  · intro ht
    rw [hF, if_neg (not_le.mpr (lt_of_lt_of_le one_pos ht)), blend_of_one_le _ _ _ ht]
  · intro h0 h1
    rw [hF, if_neg (not_le.mpr h0), blend_mid _ _ _ h0 h1]
    rfl
  · intro h0 h1 himg hcore
    rw [hF, if_neg (not_le.mpr h0), blend_mid _ _ _ h0 h1]
    exact forall2_zip_zipWith _ _ (fun a ha b hb =>
      addWeightedPx_close a b t (himg a ha) (hcore b hb) h0 h1)

/-- A successful association-list lookup yields a value of the table. -/
theorem lookup_forall {β : Type} (P : β → Prop) :
    ∀ (tbl : List (String × β)) (name : String) (f : β),
      (∀ p ∈ tbl, P p.2) → tbl.lookup name = some f → P f := by
  intro tbl
  induction tbl with
  | nil => intro name f _ hlk; simp [List.lookup] at hlk
  | cons kv rest ih =>
    intro name f hall hlk
    obtain ⟨k, b⟩ := kv
    simp only [List.lookup] at hlk
    cases hbe : (name == k) with
    | true =>
      rw [hbe] at hlk
      have hbf : b = f := by injection hlk
      subst hbf
      exact hall (k, b) (List.mem_cons_self _ _)
    | false =>
      rw [hbe] at hlk
      exact ih name f (fun p hp => hall p (List.mem_cons_of_mem _ hp)) hlk

/-- An association-list lookup for a key not in the table fails. -/
theorem lookup_none {β : Type} :
    ∀ (tbl : List (String × β)) (name : String),
      (∀ p ∈ tbl, p.1 ≠ name) → tbl.lookup name = none := by
  intro tbl
  induction tbl with
  | nil => intro name _; rfl
  | cons kv rest ih =>
    intro name hne
    obtain ⟨k, b⟩ := kv
    simp only [List.lookup]
    have hk : k ≠ name := hne (k, b) (List.mem_cons_self _ _)
    have hbe : (name == k) = false := beq_eq_false_iff_ne.mpr (Ne.symm hk)
    rw [hbe]
    exact ih name (fun p hp => hne p (List.mem_cons_of_mem _ hp))

/-- A lookup skips a prefix of the table in which it fails. -/
theorem lookup_append {β : Type} :
    ∀ (l1 l2 : List (String × β)) (name : String),
      l1.lookup name = none → (l1 ++ l2).lookup name = l2.lookup name := by
  intro l1
  induction l1 with
  | nil => intro l2 name _; rfl
  | cons kv rest ih =>
    intro l2 name hnone
    obtain ⟨k, b⟩ := kv
    simp only [List.lookup, List.cons_append] at hnone ⊢
    cases hbe : (name == k) with
    | true => rw [hbe] at hnone; cases hnone
    | false =>
      rw [hbe] at hnone
      exact ih l2 name hnone

theorem apply_filter_nonpos (cv : CV) (image : Image) (name : String) (t : ℚ)
    (ht : t ≤ 0) : FilterEngine.apply_filter cv image name t = image := by
  unfold FilterEngine.apply_filter
  cases hlk : (FilterEngine.filterMap cv).lookup name with
  | none => rfl
  | some f =>
    have hall : ∀ p ∈ FilterEngine.filterMap cv, (p.2 : Image → ℚ → Image) image t = image := by
      intro p hp
      fin_cases hp <;>
        simp [FilterEngine.gaussian_blur, FilterEngine.box_blur, FilterEngine.median_blur,
          FilterEngine.sharpen, FilterEngine.unsharp_mask, FilterEngine.edge_detect,
          FilterEngine.emboss, FilterEngine.sepia, FilterEngine.vintage, FilterEngine.vignette,
          FilterEngine.hdr_effect, FilterEngine.pencil_sketch, FilterEngine.oil_painting,
          FilterEngine.pixelate, FilterEngine.posterize, FilterEngine.warm_filter,
          FilterEngine.cool_filter, FilterEngine.dramatic, ht]
    exact lookup_forall (fun g => g image t = image) (FilterEngine.filterMap cv) name f hall hlk

/-- C1: every one of the 18 filter routines satisfies the blend contract
(identity at intensity ≤ 0; the fully-transformed variant, with no
contribution from the original, at t ≥ 1; for t strictly between 0 and 1
every output sample is the `cv2.addWeighted` interpolation, which lies
within rounding tolerance of `original*(1-t) + filtered*t`); the
`apply_filter` dispatch agrees with the named routines and returns the
input unchanged at intensity ≤ 0 for every name; and each of the 7 noise
routines returns an image identical to its input at intensity ≤ 0. -/
theorem claim1_blend_contract_and_zero_identity (cv : CV) :
    BlendContract (FilterEngine.gaussian_blur cv) (FilterEngine.gaussianBlurCore cv)
    ∧ BlendContract (FilterEngine.box_blur cv) (FilterEngine.boxBlurCore cv)
    ∧ BlendContract (FilterEngine.median_blur cv) (FilterEngine.medianBlurCore cv)
    ∧ BlendContract (FilterEngine.sharpen cv) (FilterEngine.sharpenCore cv)
    ∧ BlendContract (FilterEngine.unsharp_mask cv) (FilterEngine.unsharpCore cv)
    ∧ BlendContract (FilterEngine.edge_detect cv) (FilterEngine.edgeCore cv)
    ∧ BlendContract (FilterEngine.emboss cv) (FilterEngine.embossCore cv)
    ∧ BlendContract (FilterEngine.sepia cv) (FilterEngine.sepiaCore cv)
    ∧ BlendContract (FilterEngine.vintage cv) (FilterEngine.vintageCore cv)
    ∧ BlendContract (FilterEngine.vignette cv) (FilterEngine.vignetteCore cv)
    ∧ BlendContract (FilterEngine.hdr_effect cv) (FilterEngine.hdrCore cv)
    ∧ BlendContract (FilterEngine.pencil_sketch cv) (FilterEngine.pencilCore cv)
    ∧ BlendContract (FilterEngine.oil_painting cv) (FilterEngine.oilCore cv)
    ∧ BlendContract (FilterEngine.pixelate cv) (FilterEngine.pixelateCore cv)
    ∧ BlendContract (FilterEngine.posterize cv) (FilterEngine.posterizeCore cv)
    ∧ BlendContract (FilterEngine.warm_filter cv) (FilterEngine.warmCore cv)
    ∧ BlendContract (FilterEngine.cool_filter cv) (FilterEngine.coolCore cv)
    ∧ BlendContract (FilterEngine.dramatic cv) (FilterEngine.dramaticCore cv)
    ∧ (∀ image t,
        FilterEngine.apply_filter cv image "gaussian_blur" t = FilterEngine.gaussian_blur cv image t
        ∧ FilterEngine.apply_filter cv image "box_blur" t = FilterEngine.box_blur cv image t
        ∧ FilterEngine.apply_filter cv image "median_blur" t = FilterEngine.median_blur cv image t
        ∧ FilterEngine.apply_filter cv image "sharpen" t = FilterEngine.sharpen cv image t
        ∧ FilterEngine.apply_filter cv image "unsharp_mask" t = FilterEngine.unsharp_mask cv image t
        ∧ FilterEngine.apply_filter cv image "edge_detect" t = FilterEngine.edge_detect cv image t
        ∧ FilterEngine.apply_filter cv image "emboss" t = FilterEngine.emboss cv image t
        ∧ FilterEngine.apply_filter cv image "sepia" t = FilterEngine.sepia cv image t
        ∧ FilterEngine.apply_filter cv image "vintage" t = FilterEngine.vintage cv image t
        ∧ FilterEngine.apply_filter cv image "vignette" t = FilterEngine.vignette cv image t
        ∧ FilterEngine.apply_filter cv image "hdr_effect" t = FilterEngine.hdr_effect cv image t
        ∧ FilterEngine.apply_filter cv image "pencil_sketch" t = FilterEngine.pencil_sketch cv image t
        ∧ FilterEngine.apply_filter cv image "oil_painting" t = FilterEngine.oil_painting cv image t
        ∧ FilterEngine.apply_filter cv image "pixelate" t = FilterEngine.pixelate cv image t
        ∧ FilterEngine.apply_filter cv image "posterize" t = FilterEngine.posterize cv image t
        ∧ FilterEngine.apply_filter cv image "warm_filter" t = FilterEngine.warm_filter cv image t
        ∧ FilterEngine.apply_filter cv image "cool_filter" t = FilterEngine.cool_filter cv image t
        ∧ FilterEngine.apply_filter cv image "dramatic" t = FilterEngine.dramatic cv image t)
    ∧ (∀ image name t, t ≤ 0 → FilterEngine.apply_filter cv image name t = image)
    ∧ (∀ image t monochrome scale, t ≤ 0 →
        NoiseEngine.gaussian cv image t monochrome scale = image
        ∧ NoiseEngine.salt_pepper cv image t monochrome scale = image
        ∧ NoiseEngine.poisson cv image t monochrome scale = image
        ∧ NoiseEngine.speckle cv image t monochrome scale = image
        ∧ NoiseEngine.uniform cv image t monochrome scale = image
        ∧ NoiseEngine.film_grain cv image t monochrome scale = image
        ∧ NoiseEngine.color_noise cv image t monochrome scale = image) := by
  refine ⟨blendContract_mk _ _ (fun img t => rfl), blendContract_mk _ _ (fun img t => rfl),
    blendContract_mk _ _ (fun img t => rfl), blendContract_mk _ _ (fun img t => rfl),
    blendContract_mk _ _ (fun img t => rfl), blendContract_mk _ _ (fun img t => rfl),
    blendContract_mk _ _ (fun img t => rfl), blendContract_mk _ _ (fun img t => rfl),
    blendContract_mk _ _ (fun img t => rfl), blendContract_mk _ _ (fun img t => rfl),
    blendContract_mk _ _ (fun img t => rfl), blendContract_mk _ _ (fun img t => rfl),
    blendContract_mk _ _ (fun img t => rfl), blendContract_mk _ _ (fun img t => rfl),
    blendContract_mk _ _ (fun img t => rfl), blendContract_mk _ _ (fun img t => rfl),
    blendContract_mk _ _ (fun img t => rfl), blendContract_mk _ _ (fun img t => rfl),
    ?_, ?_, ?_⟩
  · intro image t
    exact ⟨rfl, rfl, rfl, rfl, rfl, rfl, rfl, rfl, rfl, rfl, rfl, rfl, rfl, rfl, rfl, rfl,
      rfl, rfl⟩
  · exact fun image name t ht => apply_filter_nonpos cv image name t ht
  · intro image t monochrome scale ht
    refine ⟨?_, ?_, ?_, ?_, ?_, ?_, ?_⟩ <;>
      simp [NoiseEngine.gaussian, NoiseEngine.salt_pepper, NoiseEngine.poisson,
        NoiseEngine.speckle, NoiseEngine.uniform, NoiseEngine.film_grain,
        NoiseEngine.color_noise, ht]

theorem zeroPix_valid : Image.ValidU8 ⟨1, 1, [0, 0, 0]⟩ := by decide

theorem zeroGray_valid : Image.ValidU8 ⟨1, 1, [0]⟩ := by decide

theorem cvEx_valid : cvEx.Valid where
  gaussianBlurK := fun _ _ => zeroPix_valid
  gaussianBlurS := fun _ _ => zeroPix_valid
  boxBlur := fun _ _ => zeroPix_valid
  medianBlur := fun _ _ => zeroPix_valid
  bilateral := fun _ _ _ _ => zeroPix_valid
  canny := fun _ _ _ => zeroPix_valid
  bgr2gray := fun _ => zeroGray_valid
  gray2bgr := fun _ => zeroPix_valid
  filter2D := fun _ _ => zeroPix_valid
  colorTransform := fun _ _ => zeroPix_valid
  bgr2hsv := fun _ => zeroPix_valid
  hsv2bgr := fun _ => zeroPix_valid
  resizeLinear := fun _ _ _ => zeroPix_valid
  resizeNearest := fun _ _ _ => zeroPix_valid
  radialMask := fun _ _ _ q hq => absurd hq (List.not_mem_nil q)
  blurMaskF := fun _ _ h => h
  gammaTable := fun _ v hv => by rw [List.eq_of_mem_replicate hv]; norm_num

theorem claim1_witness :
    FilterEngine.gaussian_blur cvEx exImg 0 = exImg
    ∧ FilterEngine.gaussian_blur cvEx exImg 1 = FilterEngine.gaussianBlurCore cvEx exImg 1
    ∧ (FilterEngine.gaussian_blur cvEx exImg (1 / 2)).data =
        List.zipWith (fun a b => addWeightedPx a (1 - 1 / 2) b (1 / 2) 0) exImg.data
          (FilterEngine.gaussianBlurCore cvEx exImg (1 / 2)).data
    ∧ List.Forall₂ (fun p r => RoundingClose (1 / 2) p.1 p.2 r)
        (exImg.data.zip (FilterEngine.gaussianBlurCore cvEx exImg (1 / 2)).data)
        (FilterEngine.gaussian_blur cvEx exImg (1 / 2)).data
    ∧ FilterEngine.apply_filter cvEx exImg "not_a_filter" (-1) = exImg
    ∧ NoiseEngine.gaussian cvEx exImg 0 true 1 = exImg := by
  obtain ⟨hgb, -, -, -, -, -, -, -, -, -, -, -, -, -, -, -, -, -, -, hunk, hnoise⟩ :=
    claim1_blend_contract_and_zero_identity cvEx
  exact ⟨(hgb exImg 0).1 le_rfl,
    (hgb exImg 1).2.1 le_rfl,
    (hgb exImg (1 / 2)).2.2.1 (by norm_num) (by norm_num),
    (hgb exImg (1 / 2)).2.2.2 (by norm_num) (by norm_num) (by decide) (by decide),
    hunk exImg "not_a_filter" (-1) (by norm_num),
    (hnoise exImg 0 true 1 le_rfl).1⟩

theorem addWeighted_valid (x y : Image) (a b c : ℚ) : (addWeighted x a y b c).ValidU8 := by
  intro v hv
  rcases mem_zipWith hv with ⟨p, q, -, -, rfl⟩
  exact satRound_le _

theorem satAdd_valid (x y : Image) : (satAdd x y).ValidU8 := by
  intro v hv
  rcases mem_zipWith hv with ⟨p, q, -, -, rfl⟩
  exact min_le_left _ _

theorem satSub_valid {x : Image} (hx : x.ValidU8) (y : Image) : (satSub x y).ValidU8 := by
  intro v hv
  rcases mem_zipWith hv with ⟨p, q, hp, -, rfl⟩
  exact le_trans (Nat.sub_le p q) (hx p hp)

theorem convertScaleAbs_valid (img : Image) (a b : ℚ) : (convertScaleAbs img a b).ValidU8 := by
  intro v hv
  rcases List.mem_map.mp hv with ⟨u, -, rfl⟩
  exact satRound_le _

theorem cvDivide_valid (x y : Image) (s : ℚ) : (cvDivide x y s).ValidU8 := by
  intro v hv
  rcases mem_zipWith hv with ⟨p, q, -, -, rfl⟩
  split
  · norm_num
  · exact satRound_le _

theorem imSub255_valid (x : Image) : (imSub255 x).ValidU8 := by
  intro v hv
  rcases List.mem_map.mp hv with ⟨u, -, rfl⟩
  omega

theorem applyMask3_valid (img : Image) (mask : FImage) : (applyMask3 img mask).ValidU8 := by
  intro v hv
  rcases mem_idxMap hv with ⟨i, a, -, rfl⟩
  exact u8cast_le _

theorem blend_valid {o f : Image} (t : ℚ) (ho : o.ValidU8) (hf : f.ValidU8) :
    (blend o f t).ValidU8 := by
  unfold blend
  split
  · exact ho
  · split
    · exact hf
    · exact addWeighted_valid _ _ _ _ _

namespace FilterEngine

theorem iterApply_valid {f : Image → Image} (hf : ∀ x, (f x).ValidU8) :
    ∀ (n : Nat) (x : Image), x.ValidU8 → (iterApply f n x).ValidU8
  | 0, _, hx => hx
  | n + 1, x, _ => iterApply_valid hf n (f x) (hf x)

theorem gaussian_blur_valid {cv : CV} (hcv : cv.Valid) {image : Image}
    (him : image.ValidU8) (t : ℚ) : (gaussian_blur cv image t).ValidU8 := by
  unfold gaussian_blur
  split
  · exact him
  · exact blend_valid _ him (hcv.gaussianBlurK _ _)

theorem box_blur_valid {cv : CV} (hcv : cv.Valid) {image : Image}
    (him : image.ValidU8) (t : ℚ) : (box_blur cv image t).ValidU8 := by
  unfold box_blur
  split
  · exact him
  · exact blend_valid _ him (hcv.boxBlur _ _)

theorem median_blur_valid {cv : CV} (hcv : cv.Valid) {image : Image}
    (him : image.ValidU8) (t : ℚ) : (median_blur cv image t).ValidU8 := by
  unfold median_blur
  split
  · exact him
  · exact blend_valid _ him (hcv.medianBlur _ _)

theorem sharpen_valid {cv : CV} (_hcv : cv.Valid) {image : Image}
    (him : image.ValidU8) (t : ℚ) : (sharpen cv image t).ValidU8 := by
  unfold sharpen
  split
  · exact him
  · exact blend_valid _ him (addWeighted_valid _ _ _ _ _)

theorem unsharp_mask_valid {cv : CV} (_hcv : cv.Valid) {image : Image}
    (him : image.ValidU8) (t : ℚ) : (unsharp_mask cv image t).ValidU8 := by
  unfold unsharp_mask
  split
  · exact him
  · exact blend_valid _ him (addWeighted_valid _ _ _ _ _)

theorem edge_detect_valid {cv : CV} (hcv : cv.Valid) {image : Image}
    (him : image.ValidU8) (t : ℚ) : (edge_detect cv image t).ValidU8 := by
  unfold edge_detect
  split
  · exact him
  · exact blend_valid _ him (hcv.gray2bgr _)

theorem emboss_valid {cv : CV} (_hcv : cv.Valid) {image : Image}
    (him : image.ValidU8) (t : ℚ) : (emboss cv image t).ValidU8 := by
  unfold emboss
  split
  · exact him
  · refine blend_valid _ him ?_
    intro v hv
    rcases List.mem_map.mp hv with ⟨u, -, rfl⟩
    exact min_le_left _ _

theorem sepia_valid {cv : CV} (hcv : cv.Valid) {image : Image}
    (him : image.ValidU8) (t : ℚ) : (sepia cv image t).ValidU8 := by
  unfold sepia
  split
  · exact him
  · exact blend_valid _ him (hcv.colorTransform _ _)

theorem vintage_valid {cv : CV} (_hcv : cv.Valid) {image : Image}
    (him : image.ValidU8) (t : ℚ) : (vintage cv image t).ValidU8 := by
  unfold vintage
  split
  · exact him
  · exact blend_valid _ him (applyMask3_valid _ _)

theorem vignette_valid {cv : CV} (_hcv : cv.Valid) {image : Image}
    (him : image.ValidU8) (t : ℚ) : (vignette cv image t).ValidU8 := by
  unfold vignette
  split
  · exact him
  · exact blend_valid _ him (applyMask3_valid _ _)

theorem hdr_effect_valid {cv : CV} (hcv : cv.Valid) {image : Image}
    (him : image.ValidU8) (t : ℚ) : (hdr_effect cv image t).ValidU8 := by
  unfold hdr_effect
  split
  · exact him
  · exact blend_valid _ him (hcv.hsv2bgr _)

theorem pencil_sketch_valid {cv : CV} (hcv : cv.Valid) {image : Image}
    (him : image.ValidU8) (t : ℚ) : (pencil_sketch cv image t).ValidU8 := by
  unfold pencil_sketch
  split
  · exact him
  · exact blend_valid _ him (hcv.gray2bgr _)

theorem oil_painting_valid {cv : CV} (hcv : cv.Valid) {image : Image}
    (him : image.ValidU8) (t : ℚ) : (oil_painting cv image t).ValidU8 := by
  unfold oil_painting
  split
  · exact him
  · exact blend_valid _ him
      (iterApply_valid (fun x => hcv.bilateral x _ _ _) _ image him)

theorem pixelate_valid {cv : CV} (hcv : cv.Valid) {image : Image}
    (him : image.ValidU8) (t : ℚ) : (pixelate cv image t).ValidU8 := by
  unfold pixelate
  split
  · exact him
  · exact blend_valid _ him (hcv.resizeNearest _ _ _)

theorem posterize_valid {cv : CV} (_hcv : cv.Valid) {image : Image}
    (him : image.ValidU8) (t : ℚ) : (posterize cv image t).ValidU8 := by
  unfold posterize
  split
  · exact him
  · refine blend_valid _ him ?_
    intro v hv
    rcases List.mem_map.mp hv with ⟨u, -, rfl⟩
    exact min_le_left _ _

theorem warm_filter_valid {cv : CV} (_hcv : cv.Valid) {image : Image}
    (him : image.ValidU8) (t : ℚ) : (warm_filter cv image t).ValidU8 := by
  unfold warm_filter
  split
  · exact him
  · refine blend_valid _ him ?_
    intro v hv
    rcases mem_idxMap hv with ⟨i, a, -, rfl⟩
    split
    · exact toU8_le _
    · split
      · exact toU8_le _
      · exact toU8_le _

theorem cool_filter_valid {cv : CV} (_hcv : cv.Valid) {image : Image}
    (him : image.ValidU8) (t : ℚ) : (cool_filter cv image t).ValidU8 := by
  unfold cool_filter
  split
  · exact him
  · refine blend_valid _ him ?_
    intro v hv
    rcases mem_idxMap hv with ⟨i, a, -, rfl⟩
    split
    · exact toU8_le _
    · split
      · exact toU8_le _
      · exact u8cast_le _

theorem dramatic_valid {cv : CV} (_hcv : cv.Valid) {image : Image}
    (him : image.ValidU8) (t : ℚ) : (dramatic cv image t).ValidU8 := by
  unfold dramatic
  split
  · exact him
  · exact blend_valid _ him (applyMask3_valid _ _)

theorem apply_filter_valid {cv : CV} (hcv : cv.Valid) {image : Image}
    (him : image.ValidU8) (name : String) (t : ℚ) :
    (apply_filter cv image name t).ValidU8 := by
  unfold apply_filter
  cases hlk : (filterMap cv).lookup name with
  | none => exact him
  | some f =>
    refine lookup_forall (fun g => (g image t).ValidU8) (filterMap cv) name f ?_ hlk
    intro p hp
    fin_cases hp
    · exact gaussian_blur_valid hcv him t
    · exact box_blur_valid hcv him t
    · exact median_blur_valid hcv him t
    · exact sharpen_valid hcv him t
    · exact unsharp_mask_valid hcv him t
    · exact edge_detect_valid hcv him t
    · exact emboss_valid hcv him t
    · exact sepia_valid hcv him t
    · exact vintage_valid hcv him t
    · exact vignette_valid hcv him t
    · exact hdr_effect_valid hcv him t
    · exact pencil_sketch_valid hcv him t
    · exact oil_painting_valid hcv him t
    · exact pixelate_valid hcv him t
    · exact posterize_valid hcv him t
    · exact warm_filter_valid hcv him t
    · exact cool_filter_valid hcv him t
    · exact dramatic_valid hcv him t

end FilterEngine

theorem getD_le_255 : ∀ (l : List Nat), (∀ v ∈ l, v ≤ 255) → ∀ i, l.getD i 0 ≤ 255 := by
  intro l
  induction l with
  | nil => intro _ i; simp [List.getD]
  | cons a as ih =>
    intro hl i
    cases i with
    | zero => simpa [List.getD_cons_zero] using hl a (List.mem_cons_self _ _)
    | succ n =>
      rw [List.getD_cons_succ]
      exact ih (fun v hv => hl v (List.mem_cons_of_mem _ hv)) n

namespace NoiseEngine

theorem gaussian_valid {image : Image} (him : image.ValidU8) (cv : CV) (t : ℚ)
    (mono : Bool) (scale : ℚ) : (gaussian cv image t mono scale).ValidU8 := by
  unfold gaussian
  split
  · exact him
  · intro v hv
    rcases mem_zipWith hv with ⟨p, q, -, -, rfl⟩
    exact toU8_le _

theorem salt_pepper_valid {image : Image} (him : image.ValidU8) (cv : CV) (t : ℚ)
    (mono : Bool) (scale : ℚ) : (salt_pepper cv image t mono scale).ValidU8 := by
  unfold salt_pepper
  split
  · exact him
  · intro v hv
    simp only at hv
    split at hv <;>
    · rcases mem_idxMap hv with ⟨i, a, ha, rfl⟩
      split
      · norm_num
      · split
        · norm_num
        · exact him a ha

theorem poisson_valid {image : Image} (him : image.ValidU8) (cv : CV) (t : ℚ)
    (mono : Bool) (scale : ℚ) : (poisson cv image t mono scale).ValidU8 := by
  unfold poisson
  split
  · exact him
  · exact addWeighted_valid _ _ _ _ _

theorem speckle_valid {image : Image} (him : image.ValidU8) (cv : CV) (t : ℚ)
    (mono : Bool) (scale : ℚ) : (speckle cv image t mono scale).ValidU8 := by
  unfold speckle
  split
  · exact him
  · intro v hv
    rcases mem_zipWith hv with ⟨p, q, -, -, rfl⟩
    exact toU8_le _

theorem uniform_valid {image : Image} (him : image.ValidU8) (cv : CV) (t : ℚ)
    (mono : Bool) (scale : ℚ) : (uniform cv image t mono scale).ValidU8 := by
  unfold uniform
  split
  · exact him
  · intro v hv
    rcases mem_zipWith hv with ⟨p, q, -, -, rfl⟩
    exact toU8_le _

theorem film_grain_valid {image : Image} (him : image.ValidU8) (cv : CV) (t : ℚ)
    (mono : Bool) (scale : ℚ) : (film_grain cv image t mono scale).ValidU8 := by
  unfold film_grain
  split
  · exact him
  · intro v hv
    rcases mem_idxMap hv with ⟨i, a, -, rfl⟩
    exact toU8_le _

theorem color_noise_valid {image : Image} (him : image.ValidU8) (cv : CV) (t : ℚ)
    (mono : Bool) (scale : ℚ) : (color_noise cv image t mono scale).ValidU8 := by
  unfold color_noise
  split
  · exact him
  · intro v hv
    rcases mem_zipWith hv with ⟨p, q, -, -, rfl⟩
    exact toU8_le _

theorem apply_noise_valid {cv : CV} {image : Image} (him : image.ValidU8)
    (name : String) (t : ℚ) (mono : Bool) (scale : ℚ) :
    (apply_noise cv image name t mono scale).ValidU8 := by
  unfold apply_noise
  cases hlk : (noiseMap cv).lookup name with
  | none => exact him
  | some f =>
    refine lookup_forall (fun g => (g image t mono scale).ValidU8) (noiseMap cv) name f ?_ hlk
    intro p hp
    fin_cases hp
    · exact gaussian_valid him cv t mono scale
    · exact salt_pepper_valid him cv t mono scale
    · exact poisson_valid him cv t mono scale
    · exact speckle_valid him cv t mono scale
    · exact uniform_valid him cv t mono scale
    · exact film_grain_valid him cv t mono scale
    · exact color_noise_valid him cv t mono scale

end NoiseEngine

namespace ImageProcessor

theorem stepBrightnessContrast_valid (adj : List (String × ℚ)) {image : Image}
    (him : image.ValidU8) : (stepBrightnessContrast adj image).ValidU8 := by
  simp only [stepBrightnessContrast]
  split
  · exact convertScaleAbs_valid _ _ _
  · exact him

theorem stepExposure_valid (cv : CV) (adj : List (String × ℚ)) {image : Image}
    (him : image.ValidU8) : (stepExposure cv adj image).ValidU8 := by
  simp only [stepExposure]
  split
  · intro v hv
    rcases List.mem_map.mp hv with ⟨u, -, rfl⟩
    exact toU8_le _
  · exact him

theorem stepGamma_valid {cv : CV} (hcv : cv.Valid) (adj : List (String × ℚ)) {image : Image}
    (him : image.ValidU8) : (stepGamma cv adj image).ValidU8 := by
  simp only [stepGamma]
  split
  · intro v hv
    rcases List.mem_map.mp hv with ⟨u, -, rfl⟩
    exact getD_le_255 _ (hcv.gammaTable _) u
  · exact him

theorem stepHSV_valid {cv : CV} (hcv : cv.Valid) (adj : List (String × ℚ)) {image : Image}
    (him : image.ValidU8) : (stepHSV cv adj image).ValidU8 := by
  simp only [stepHSV]
  split
  · exact hcv.hsv2bgr _
  · exact him

theorem stepTemperature_valid (adj : List (String × ℚ)) {image : Image}
    (him : image.ValidU8) : (stepTemperature adj image).ValidU8 := by
  simp only [stepTemperature]
  split
  · intro v hv
    rcases mem_idxMap hv with ⟨i, a, -, rfl⟩
    split
    · exact toU8_le _
    · split
      · exact toU8_le _
      · exact u8cast_le _
  · exact him

theorem stepTint_valid (adj : List (String × ℚ)) {image : Image}
    (him : image.ValidU8) : (stepTint adj image).ValidU8 := by
  simp only [stepTint]
  split
  · intro v hv
    rcases mem_idxMap hv with ⟨i, a, -, rfl⟩
    split
    · exact toU8_le _
    · exact u8cast_le _
  · exact him

theorem adjust_tonal_range_valid (cv : CV) (image : Image) (value : ℚ) (hi : Bool) :
    (adjust_tonal_range cv image value hi).ValidU8 := by
  intro v hv
  rcases mem_idxMap hv with ⟨i, a, -, rfl⟩
  exact toU8_le _

theorem stepHighlights_valid (cv : CV) (adj : List (String × ℚ)) {image : Image}
    (him : image.ValidU8) : (stepHighlights cv adj image).ValidU8 := by
  simp only [stepHighlights]
  split
  · exact adjust_tonal_range_valid _ _ _ _
  · exact him

theorem stepShadows_valid (cv : CV) (adj : List (String × ℚ)) {image : Image}
    (him : image.ValidU8) : (stepShadows cv adj image).ValidU8 := by
  simp only [stepShadows]
  split
  · exact adjust_tonal_range_valid _ _ _ _
  · exact him

theorem apply_clarity_valid (cv : CV) (image : Image) (value : ℚ) :
    (apply_clarity cv image value).ValidU8 := by
  intro v hv
  rcases List.mem_map.mp hv with ⟨u, -, rfl⟩
  exact min_le_left _ _

theorem stepClarity_valid (cv : CV) (adj : List (String × ℚ)) {image : Image}
    (him : image.ValidU8) : (stepClarity cv adj image).ValidU8 := by
  simp only [stepClarity]
  split
  · exact apply_clarity_valid _ _ _
  · exact him

theorem stepSharpness_valid (cv : CV) (adj : List (String × ℚ)) {image : Image}
    (him : image.ValidU8) : (stepSharpness cv adj image).ValidU8 := by
  simp only [stepSharpness]
  split
  · intro v hv
    rcases List.mem_map.mp hv with ⟨u, -, rfl⟩
    exact min_le_left _ _
  · exact him

theorem apply_adjustments_valid {cv : CV} (hcv : cv.Valid) (adj : List (String × ℚ))
    {image : Image} (him : image.ValidU8) : (apply_adjustments cv adj image).ValidU8 :=
  stepSharpness_valid cv adj (stepClarity_valid cv adj (stepShadows_valid cv adj
    (stepHighlights_valid cv adj (stepTint_valid adj (stepTemperature_valid adj
      (stepHSV_valid hcv adj (stepGamma_valid hcv adj (stepExposure_valid cv adj
        (stepBrightnessContrast_valid adj him)))))))))

theorem apply_filters_valid {cv : CV} (hcv : cv.Valid) (fs : List (String × Int))
    {image : Image} (him : image.ValidU8) : (apply_filters cv fs image).ValidU8 := by
  induction fs generalizing image with
  | nil => exact him
  | cons p rest ih =>
    have hstep : (if 0 < p.2 then
        FilterEngine.apply_filter cv image p.1 ((p.2 : ℚ) / 100) else image).ValidU8 := by
      split
      · exact FilterEngine.apply_filter_valid hcv him _ _
      · exact him
    exact ih hstep

theorem apply_noise_stage_valid {cv : CV} (_hcv : cv.Valid) (noise : NoiseParams)
    {image : Image} (him : image.ValidU8) : (apply_noise_stage cv noise image).ValidU8 := by
  unfold apply_noise_stage
  split
  · exact him
  · exact NoiseEngine.apply_noise_valid him _ _ _ _

end ImageProcessor

/-- C2: for every valid 8-bit 3-channel source image and arbitrary
combinations of adjustment, filter and noise parameters (including extreme
slider values), every sample after the adjustments stage, after the filters
stage, and after the noise stage — i.e. the full `_run_pipeline` output
(Adjustments then Filters then Noise) — lies in [0, 255]. -/
theorem claim2_pipeline_range_closure (cv : CV) (hcv : cv.Valid)
    (adj : List (String × ℚ)) (fs : List (String × Int)) (noise : NoiseParams)
    (source : Image) (hsrc : source.ValidU8) :
    (ImageProcessor.apply_adjustments cv adj source).ValidU8
    ∧ (ImageProcessor.apply_filters cv fs
        (ImageProcessor.apply_adjustments cv adj source)).ValidU8
    ∧ (ImageProcessor.run_pipeline cv adj fs noise source).ValidU8 := by
  have h1 := ImageProcessor.apply_adjustments_valid hcv adj hsrc
  have h2 := ImageProcessor.apply_filters_valid hcv fs h1
  exact ⟨h1, h2, ImageProcessor.apply_noise_stage_valid hcv noise h2⟩

theorem claim2_witness :
    (ImageProcessor.apply_adjustments cvEx ImageProcessor.defaultAdjustments exImg).ValidU8
    ∧ (ImageProcessor.apply_filters cvEx [("sepia", 50)]
        (ImageProcessor.apply_adjustments cvEx ImageProcessor.defaultAdjustments exImg)).ValidU8
    ∧ (ImageProcessor.run_pipeline cvEx ImageProcessor.defaultAdjustments [("sepia", 50)]
        ⟨"gaussian", 50, true, 1⟩ exImg).ValidU8 :=
  claim2_pipeline_range_closure cvEx cvEx_valid ImageProcessor.defaultAdjustments
    [("sepia", 50)] ⟨"gaussian", 50, true, 1⟩ exImg (by decide)

theorem apply_filter_unknown (cv : CV) (image : Image) {name : String}
    (hname : name ∉ FilterEngine.knownFilterNames) (t : ℚ) :
    FilterEngine.apply_filter cv image name t = image := by
  unfold FilterEngine.apply_filter
  have hn : (FilterEngine.filterMap cv).lookup name = none := by
    apply lookup_none
    intro p hp hEq
    apply hname
    have hmem : p.1 ∈ FilterEngine.knownFilterNames := by
      fin_cases hp <;> simp [FilterEngine.knownFilterNames]
    exact hEq ▸ hmem
  rw [hn]

theorem apply_noise_unknown (cv : CV) (image : Image) {ntype : String}
    (hntype : ntype ∉ NoiseEngine.knownNoiseTypes) (t : ℚ) (mono : Bool) (scale : ℚ) :
    NoiseEngine.apply_noise cv image ntype t mono scale = image := by
  unfold NoiseEngine.apply_noise
  have hn : (NoiseEngine.noiseMap cv).lookup ntype = none := by
    apply lookup_none
    intro p hp hEq
    apply hntype
    have hmem : p.1 ∈ NoiseEngine.knownNoiseTypes := by
      fin_cases hp <;> simp [NoiseEngine.knownNoiseTypes]
    exact hEq ▸ hmem
  rw [hn]

/-- C3 (code bug): with brightness set to its extreme valid slider value 100
and everything else neutral, `has_pending_changes` returns false although
brightness differs from its neutral default 0 — the source's
`v != 0 and v != 100` test treats 100 as neutral for every adjustment key,
not only for gamma. -/
theorem claim3_has_pending_changes_misses_100 :
    ImageProcessor.has_pending_changes
      (ImageProcessor.set_adjustment ImageProcessor.defaultAdjustments "brightness" 100)
      [] ImageProcessor.defaultNoise = false
    ∧ ImageProcessor.get_adjustment
        (ImageProcessor.set_adjustment ImageProcessor.defaultAdjustments "brightness" 100)
        "brightness" = 100
    ∧ ImageProcessor.get_adjustment ImageProcessor.defaultAdjustments "brightness" = 0 :=
  ⟨by decide, by decide, by decide⟩

/-- C9: invalid parameters are silently ignored and never raise: an unknown
filter name and an unknown noise type return an unmodified copy of the
input at any intensity, and `set_adjustment` with an unknown key leaves the
adjustment dictionary unchanged. -/
theorem claim9_invalid_params_ignored (cv : CV) (image : Image) (t : ℚ)
    (mono : Bool) (scale : ℚ) (name ntype key : String) (value : ℚ)
    (adj : List (String × ℚ))
    (hname : name ∉ FilterEngine.knownFilterNames)
    (hntype : ntype ∉ NoiseEngine.knownNoiseTypes)
    (hkey : ∀ p ∈ adj, p.1 ≠ key) :
    FilterEngine.apply_filter cv image name t = image
    ∧ NoiseEngine.apply_noise cv image ntype t mono scale = image
    ∧ ImageProcessor.set_adjustment adj key value = adj := by
  refine ⟨apply_filter_unknown cv image hname t,
    apply_noise_unknown cv image hntype t mono scale, ?_⟩
  unfold ImageProcessor.set_adjustment
  have hfalse : (adj.any fun p => p.1 == key) = false := by
    rw [List.any_eq_false]
    intro p hp
    simpa using hkey p hp
  rw [hfalse]
  simp

theorem claim9_witness :
    FilterEngine.apply_filter cvEx exImg "swirl" (1 / 2) = exImg
    ∧ NoiseEngine.apply_noise cvEx exImg "perlin" (1 / 2) true 1 = exImg
    ∧ ImageProcessor.set_adjustment ImageProcessor.defaultAdjustments "opacity" 5 =
        ImageProcessor.defaultAdjustments :=
  claim9_invalid_params_ignored cvEx exImg (1 / 2) true 1 "swirl" "perlin" "opacity" 5
    ImageProcessor.defaultAdjustments (by decide) (by decide) (by decide)

/-- C10: `set_filter` stores an unknown filter name without validation: the
entry lands at the end of the stack, `get_filter_intensity` returns it,
`has_pending_changes` becomes true, and yet the pipeline applies the entry
as the identity — the output equals the pipeline without the unknown
entry. -/
theorem claim10_unknown_filter_stored_but_identity (cv : CV)
    (adj : List (String × ℚ)) (fs : List (String × Int)) (noise : NoiseParams)
    (source : Image) (name : String) (i : Int)
    (hname : name ∉ FilterEngine.knownFilterNames)
    (hfresh : ∀ p ∈ fs, p.1 ≠ name) (hi : 0 < i) :
    ImageProcessor.set_filter fs name i = fs ++ [(name, i)]
    ∧ ImageProcessor.get_filter_intensity (ImageProcessor.set_filter fs name i) name = i
    ∧ ImageProcessor.has_pending_changes adj (ImageProcessor.set_filter fs name i) noise = true
    ∧ ImageProcessor.run_pipeline cv adj (ImageProcessor.set_filter fs name i) noise source
        = ImageProcessor.run_pipeline cv adj fs noise source := by
  have hlkfs : fs.lookup name = none := lookup_none fs name hfresh
  have hset : ImageProcessor.set_filter fs name i = fs ++ [(name, i)] := by
    unfold ImageProcessor.set_filter
    rw [if_neg (not_le.mpr hi)]
    have hfalse : (fs.any fun p => p.1 == name) = false := by
      rw [List.any_eq_false]
      intro p hp
      simpa using hfresh p hp
    rw [hfalse]
    simp
  have hget : ImageProcessor.get_filter_intensity (ImageProcessor.set_filter fs name i) name = i := by
    unfold ImageProcessor.get_filter_intensity
    rw [hset, lookup_append fs [(name, i)] name hlkfs]
    simp [List.lookup]
  have hpend : ImageProcessor.has_pending_changes adj (ImageProcessor.set_filter fs name i) noise
      = true := by
    unfold ImageProcessor.has_pending_changes
    rw [hset]
    simp
  have hpipe : ImageProcessor.run_pipeline cv adj (ImageProcessor.set_filter fs name i) noise source
      = ImageProcessor.run_pipeline cv adj fs noise source := by
    unfold ImageProcessor.run_pipeline
    rw [hset]
    have hfl : ∀ img : Image, ImageProcessor.apply_filters cv (fs ++ [(name, i)]) img
        = ImageProcessor.apply_filters cv fs img := by
      intro img
      unfold ImageProcessor.apply_filters
      rw [List.foldl_append, List.foldl_cons, List.foldl_nil, if_pos hi,
        apply_filter_unknown cv _ hname _]
    rw [hfl]
  exact ⟨hset, hget, hpend, hpipe⟩

theorem claim10_witness :
    ImageProcessor.set_filter [("sepia", 40)] "swirl2" 30 = [("sepia", 40), ("swirl2", 30)]
    ∧ ImageProcessor.get_filter_intensity
        (ImageProcessor.set_filter [("sepia", 40)] "swirl2" 30) "swirl2" = 30
    ∧ ImageProcessor.has_pending_changes ImageProcessor.defaultAdjustments
        (ImageProcessor.set_filter [("sepia", 40)] "swirl2" 30) ImageProcessor.defaultNoise = true
    ∧ ImageProcessor.run_pipeline cvEx ImageProcessor.defaultAdjustments
        (ImageProcessor.set_filter [("sepia", 40)] "swirl2" 30) ImageProcessor.defaultNoise exImg
      = ImageProcessor.run_pipeline cvEx ImageProcessor.defaultAdjustments [("sepia", 40)]
          ImageProcessor.defaultNoise exImg :=
  claim10_unknown_filter_stored_but_identity cvEx ImageProcessor.defaultAdjustments
    [("sepia", 40)] ImageProcessor.defaultNoise exImg "swirl2" 30
    (by decide) (by decide) (by decide)

theorem push_state_sizeInv {hm : HistoryManager α} (h : hm.SizeInv) (img : Option α) :
    (hm.push_state img).SizeInv := by
  unfold HistoryManager.SizeInv at h ⊢
  unfold HistoryManager.push_state
  cases img with
  | none => exact h
  | some i =>
    simp only [List.length_append, List.length_nil]
    split
    all_goals simp_all
    all_goals omega

theorem undo_sizeInv {hm : HistoryManager α} (h : hm.SizeInv) : (hm.undo).2.SizeInv := by
  unfold HistoryManager.SizeInv at h ⊢
  unfold HistoryManager.undo
  split
  · exact h
  · rename_i hlen
    cases hg : hm.undoStack.getLast? with
    | none => exact h
    | some current =>
      simp only [List.length_append, List.length_dropLast, List.length_singleton]
      omega

theorem redo_sizeInv {hm : HistoryManager α} (h : hm.SizeInv) : (hm.redo).2.SizeInv := by
  unfold HistoryManager.SizeInv at h ⊢
  unfold HistoryManager.redo
  cases hg : hm.redoStack.getLast? with
  | none => exact h
  | some state =>
    have hne : hm.redoStack ≠ [] := by
      intro habs
      rw [habs] at hg
      cases hg
    have hpos : 0 < hm.redoStack.length := List.length_pos.mpr hne
    simp only [List.length_append, List.length_dropLast, List.length_singleton]
    omega

theorem clear_sizeInv (hm : HistoryManager α) : hm.clear.SizeInv := by
  unfold HistoryManager.SizeInv HistoryManager.clear
  simp

theorem runOps_sizeInv : ∀ (ops : List (HOp α)) (hm : HistoryManager α),
    hm.SizeInv → (runOps ops hm).SizeInv := by
  intro ops
  induction ops with
  | nil => intro hm h; exact h
  | cons op rest ih =>
    intro hm h
    have hstep : (match op with
        | HOp.push i => hm.push_state i
        | HOp.undoOp => (hm.undo).2
        | HOp.redoOp => (hm.redo).2
        | HOp.clearOp => hm.clear).SizeInv := by
      cases op with
      | push i => exact push_state_sizeInv h i
      | undoOp => exact undo_sizeInv h
      | redoOp => exact redo_sizeInv h
      | clearOp => exact clear_sizeInv hm
    exact ih _ hstep

theorem hop_step_maxStates (hm : HistoryManager α) (op : HOp α) :
    (match op with
      | HOp.push i => hm.push_state i
      | HOp.undoOp => (hm.undo).2
      | HOp.redoOp => (hm.redo).2
      | HOp.clearOp => hm.clear).maxStates = hm.maxStates := by
  cases op with
  | push i => cases i <;> rfl
  | undoOp =>
    show ((hm.undo).2).maxStates = hm.maxStates
    unfold HistoryManager.undo
    split
    · rfl
    · cases hm.undoStack.getLast? <;> rfl
  | redoOp =>
    show ((hm.redo).2).maxStates = hm.maxStates
    unfold HistoryManager.redo
    cases hm.redoStack.getLast? <;> rfl
  | clearOp => rfl

theorem runOps_maxStates : ∀ (ops : List (HOp α)) (hm : HistoryManager α),
    (runOps ops hm).maxStates = hm.maxStates := by
  intro ops
  induction ops with
  | nil => intro hm; rfl
  | cons op rest ih =>
    intro hm
    rw [show runOps (op :: rest) hm = runOps rest (match op with
      | HOp.push i => hm.push_state i
      | HOp.undoOp => (hm.undo).2
      | HOp.redoOp => (hm.redo).2
      | HOp.clearOp => hm.clear) from rfl, ih]
    exact hop_step_maxStates hm op

/-- C5: after any sequence of push / undo / redo / clear operations starting
from a fresh manager, the undo stack never exceeds the cap and `undo_count`
never exceeds the cap minus one; moreover, a push arriving with the stack
at the cap evicts the oldest retained state. -/
theorem claim5_history_cap_invariant (α : Type) (maxStates : Nat) (ops : List (HOp α)) :
    ((runOps ops (HistoryManager.new α maxStates)).undoStack.length ≤ maxStates
      ∧ (runOps ops (HistoryManager.new α maxStates)).undo_count ≤ maxStates - 1)
    ∧ (∀ (hm : HistoryManager α) (img : α), 0 < hm.maxStates →
        hm.undoStack.length = hm.maxStates →
        (hm.push_state (some img)).undoStack = hm.undoStack.drop 1 ++ [img]) := by
  constructor
  · have hinv : (runOps ops (HistoryManager.new α maxStates)).SizeInv :=
      runOps_sizeInv ops _ (by unfold HistoryManager.SizeInv HistoryManager.new; simp)
    have hmax : (runOps ops (HistoryManager.new α maxStates)).maxStates = maxStates :=
      runOps_maxStates ops _
    unfold HistoryManager.SizeInv at hinv
    rw [hmax] at hinv
    unfold HistoryManager.undo_count
    omega
  · intro hm img hpos hfull
    unfold HistoryManager.push_state
    simp only
    rw [if_pos (by simp [List.length_append]; omega)]
    have hne : hm.undoStack ≠ [] := by
      intro habs
      rw [habs] at hfull
      simp at hfull
      omega
    cases hstack : hm.undoStack with
    | nil => exact absurd hstack hne
    | cons a rest => simp

theorem claim5_witness :
    ((runOps [HOp.push (some 1), HOp.push (some 2), HOp.push (some 3)]
        (HistoryManager.new Nat 2)).undoStack.length ≤ 2
      ∧ (runOps [HOp.push (some 1), HOp.push (some 2), HOp.push (some 3)]
          (HistoryManager.new Nat 2)).undo_count ≤ 2 - 1)
    ∧ (HistoryManager.push_state ⟨[1, 2], [], 2⟩ (some 3)).undoStack = [2, 3] := by
  have h := claim5_history_cap_invariant Nat 2
    [HOp.push (some 1), HOp.push (some 2), HOp.push (some 3)]
  exact ⟨h.1, h.2 ⟨[1, 2], [], 2⟩ 3 (by norm_num) (by decide)⟩

/-- C6: on a fresh manager with exactly one pushed state, `undo` returns
`none` and leaves both stacks unchanged; after pushing A then B, `undo`
returns A and a subsequent `redo` returns B, reproducing it exactly. -/
theorem claim6_history_round_trip (α : Type) (A B : α) :
    (((HistoryManager.new α).push_state (some A)).undo).1 = none
    ∧ (((HistoryManager.new α).push_state (some A)).undo).2.undoStack = [A]
    ∧ (((HistoryManager.new α).push_state (some A)).undo).2.redoStack = []
    ∧ ((((HistoryManager.new α).push_state (some A)).push_state (some B)).undo).1 = some A
    ∧ (((((HistoryManager.new α).push_state (some A)).push_state (some B)).undo).2.redo).1
        = some B := by
  refine ⟨rfl, rfl, rfl, ?_, ?_⟩
  all_goals
    simp [HistoryManager.new, HistoryManager.push_state, HistoryManager.undo,
      HistoryManager.redo, MAX_HISTORY_STATES]

/-- C7 (counterexample to the claim as frozen): `push_state(None)` is a
call to `push_state` that leaves a non-empty redo stack intact, so
`can_redo` is still true immediately after it. -/
theorem claim7_push_none_counterexample :
    ((runOps [HOp.push (some 1), HOp.push (some 2), HOp.undoOp]
        (HistoryManager.new Nat)).push_state none).can_redo = true
    ∧ ((runOps [HOp.push (some 1), HOp.push (some 2), HOp.undoOp]
        (HistoryManager.new Nat)).push_state none).redoStack = [2] := by
  decide

/-- C7 (amended): every `push_state` call carrying an image clears the redo
stack — `can_redo` is false immediately afterwards — while a
`push_state(None)` call is a complete no-op. -/
theorem claim7_push_clears_redo_amended (α : Type) (hm : HistoryManager α) (img : α) :
    (hm.push_state (some img)).redoStack = []
    ∧ (hm.push_state (some img)).can_redo = false
    ∧ hm.push_state none = hm := by
  refine ⟨?_, ?_, rfl⟩
  all_goals simp [HistoryManager.push_state, HistoryManager.can_redo]

/-- C4 (counterexample): on a 2×2 image, the rectangle requested at x = 5 —
entirely outside the bounds, since 5 ≥ width 2 — with positive size 1×2 is
clamped to the right border column and returned as a 2×1 strip, not as an
unmodified copy of the input. -/
theorem claim4_crop_outside_counterexample :
    TransformEngine.crop [[0, 1], [2, 3]] 5 0 1 2 = [[1], [3]]
    ∧ TransformEngine.crop [[0, 1], [2, 3]] 5 0 1 2 ≠ [[0, 1], [2, 3]]
    ∧ (2 : Int) ≤ 5 := by
  decide

/-- C4 (amended): `crop` is total, clamps the requested rectangle into the
image bounds before extraction, and returns an unmodified copy exactly for
a degenerate request — when the requested width or height is non-positive;
a rectangle of positive size lying entirely outside the bounds is clamped
to a border strip instead of being returned as the original.  Formally: a
non-positive width or height returns the input unchanged, and for positive
width and height on a nonempty image the result is the slice of the image
between clamped, strictly ordered, in-bounds row and column offsets. -/
theorem claim4_crop_clamps_amended {α : Type} (image : Mat α) (x y width height : Int) :
    (width ≤ 0 ∨ height ≤ 0 → TransformEngine.crop image x y width height = image)
    ∧ (0 < width → 0 < height → 0 < image.length → 0 < (image.headD []).length →
        ∃ (r1 r2 c1 c2 : Nat),
          r1 < r2 ∧ r2 ≤ image.length
          ∧ c1 < c2 ∧ c2 ≤ (image.headD []).length
          ∧ TransformEngine.crop image x y width height
            = ((image.drop r1).take (r2 - r1)).map
                (fun row => (row.drop c1).take (c2 - c1))) := by
  constructor
  · intro hd
    simp only [TransformEngine.crop]
    split
    · rfl
    · rename_i hcond
      exfalso
      apply hcond
      rcases hd with hw | hh
      · exact Or.inl (le_trans (min_le_left _ _) (by linarith))
      · exact Or.inr (le_trans (min_le_left _ _) (by linarith))
  · intro hw hh hrow hcol
    have hw1 : (1 : Int) ≤ ((image.headD []).length : Int) := by exact_mod_cast hcol
    have hh1 : (1 : Int) ≤ (image.length : Int) := by exact_mod_cast hrow
    simp only [TransformEngine.crop]
    set wI : Int := ((image.headD []).length : Int) with hwI
    set hI : Int := ((image.length : Int)) with hhI
    set x1 : Int := max 0 (min x (wI - 1)) with hx1
    set y1 : Int := max 0 (min y (hI - 1)) with hy1
    set x2 : Int := min (x1 + width) wI with hx2
    set y2 : Int := min (y1 + height) hI with hy2
    have hx1l : 0 ≤ x1 := le_max_left _ _
    have hy1l : 0 ≤ y1 := le_max_left _ _
    have hx1u : x1 ≤ wI - 1 := by
      rw [hx1]
      exact max_le (by linarith) (min_le_right _ _)
    have hy1u : y1 ≤ hI - 1 := by
      rw [hy1]
      exact max_le (by linarith) (min_le_right _ _)
    have hx21 : x1 < x2 := by
      rw [hx2]
      exact lt_min (by linarith) (by linarith)
    have hy21 : y1 < y2 := by
      rw [hy2]
      exact lt_min (by linarith) (by linarith)
    have hx2u : x2 ≤ wI := min_le_right _ _
    have hy2u : y2 ≤ hI := min_le_right _ _
    rw [if_neg (by push_neg; exact ⟨hx21, hy21⟩)]
    refine ⟨y1.toNat, y2.toNat, x1.toNat, x2.toNat, by omega, by omega, by omega, by omega, ?_⟩
    have hyd : (y2 - y1).toNat = y2.toNat - y1.toNat := by omega
    have hxd : (x2 - x1).toNat = x2.toNat - x1.toNat := by omega
    rw [hyd, hxd]

theorem claim4_crop_clamps_amended_witness :
    (TransformEngine.crop [[0, 1], [2, 3]] 0 0 (-1) 2 = [[0, 1], [2, 3]])
    ∧ ∃ (r1 r2 c1 c2 : Nat),
        r1 < r2 ∧ r2 ≤ ([[0, 1], [2, 3]] : Mat Nat).length
        ∧ c1 < c2 ∧ c2 ≤ (([[0, 1], [2, 3]] : Mat Nat).headD []).length
        ∧ TransformEngine.crop [[0, 1], [2, 3]] 5 0 1 2
          = ((([[0, 1], [2, 3]] : Mat Nat).drop r1).take (r2 - r1)).map
              (fun row => (row.drop c1).take (c2 - c1)) :=
  ⟨(claim4_crop_clamps_amended [[0, 1], [2, 3]] 0 0 (-1) 2).1 (Or.inl (by norm_num)),
   (claim4_crop_clamps_amended [[0, 1], [2, 3]] 5 0 1 2).2 (by norm_num) (by norm_num)
     (by decide) (by decide)⟩

/-- C8: with an image loaded, `apply_rotation` and `apply_flip` replace the
original buffer with the transformed one, regenerate the preview from it
and push a history snapshot, while leaving the adjustments, the filter
stack and the noise parameters unchanged — in contrast to `apply_resize`
and `apply_crop`, which do the same replacement but reset all parameters
to their defaults. -/
theorem claim8_rotation_flip_preserve_params (cv : CV) (st : ImageProcessor.State)
    (img : RGBMat) (angle : ℚ) (horizontal : Bool) (rw rh : Int) (method : String)
    (cx cy cw chh : Int) (h : st.original = some img) :
    ((ImageProcessor.apply_rotation cv st angle).original
        = some (TransformEngine.rotate cv img angle)
      ∧ (ImageProcessor.apply_rotation cv st angle).previewOriginal
        = some (create_preview cv (TransformEngine.rotate cv img angle)
            PREVIEW_MAX_WIDTH PREVIEW_MAX_HEIGHT)
      ∧ (ImageProcessor.apply_rotation cv st angle).history
        = st.history.push_state (some (TransformEngine.rotate cv img angle))
      ∧ (ImageProcessor.apply_rotation cv st angle).adjustments = st.adjustments
      ∧ (ImageProcessor.apply_rotation cv st angle).filters = st.filters
      ∧ (ImageProcessor.apply_rotation cv st angle).noise = st.noise)
    ∧ ((ImageProcessor.apply_flip cv st horizontal).original
        = some (if horizontal then TransformEngine.flip_horizontal cv img
            else TransformEngine.flip_vertical cv img)
      ∧ (ImageProcessor.apply_flip cv st horizontal).previewOriginal
        = some (create_preview cv (if horizontal then TransformEngine.flip_horizontal cv img
            else TransformEngine.flip_vertical cv img) PREVIEW_MAX_WIDTH PREVIEW_MAX_HEIGHT)
      ∧ (ImageProcessor.apply_flip cv st horizontal).history
        = st.history.push_state (some (if horizontal then TransformEngine.flip_horizontal cv img
            else TransformEngine.flip_vertical cv img))
      ∧ (ImageProcessor.apply_flip cv st horizontal).adjustments = st.adjustments
      ∧ (ImageProcessor.apply_flip cv st horizontal).filters = st.filters
      ∧ (ImageProcessor.apply_flip cv st horizontal).noise = st.noise)
    ∧ ((ImageProcessor.apply_resize cv st rw rh method).original
        = some (TransformEngine.resize cv img rw rh method)
      ∧ (ImageProcessor.apply_resize cv st rw rh method).history
        = st.history.push_state (some (TransformEngine.resize cv img rw rh method))
      ∧ (ImageProcessor.apply_resize cv st rw rh method).adjustments
        = ImageProcessor.defaultAdjustments
      ∧ (ImageProcessor.apply_resize cv st rw rh method).filters = []
      ∧ (ImageProcessor.apply_resize cv st rw rh method).noise = ImageProcessor.defaultNoise)
    ∧ ((ImageProcessor.apply_crop cv st cx cy cw chh).original
        = some (TransformEngine.crop img cx cy cw chh)
      ∧ (ImageProcessor.apply_crop cv st cx cy cw chh).history
        = st.history.push_state (some (TransformEngine.crop img cx cy cw chh))
      ∧ (ImageProcessor.apply_crop cv st cx cy cw chh).adjustments
        = ImageProcessor.defaultAdjustments
      ∧ (ImageProcessor.apply_crop cv st cx cy cw chh).filters = []
      ∧ (ImageProcessor.apply_crop cv st cx cy cw chh).noise
        = ImageProcessor.defaultNoise) := by
  simp only [ImageProcessor.apply_rotation, ImageProcessor.apply_flip,
    ImageProcessor.apply_resize, ImageProcessor.apply_crop,
    ImageProcessor.reset_all_params, h]
  simp

theorem claim8_witness :
    (ImageProcessor.apply_rotation cvEx stEx 90).adjustments = stEx.adjustments
    ∧ (ImageProcessor.apply_rotation cvEx stEx 90).original
      = some (TransformEngine.rotate cvEx [[[1, 2, 3]]] 90)
    ∧ (ImageProcessor.apply_flip cvEx stEx true).noise = stEx.noise
    ∧ (ImageProcessor.apply_resize cvEx stEx 10 10 "lanczos").adjustments
      = ImageProcessor.defaultAdjustments
    ∧ (ImageProcessor.apply_crop cvEx stEx 0 0 1 1).filters = [] := by
  have h := claim8_rotation_flip_preserve_params cvEx stEx [[[1, 2, 3]]] 90 true 10 10
    "lanczos" 0 0 1 1 rfl
  exact ⟨h.1.2.2.2.1, h.1.1, h.2.1.2.2.2.2.2, h.2.2.1.2.2.1, h.2.2.2.2.2.2.1⟩

end PixelForge
